import Mathlib

/-!
# auth-service (server.js): credential store, verification and lifecycle

A shallow embedding of `src/auth-service/server.js`.

* JavaScript strings are Lean `String`s (sequences of Unicode scalar values;
  a lone surrogate has no counterpart).
* The module-level variable `validTokens` is an explicit `JsObject`: the own
  properties of a plain object, in the order `for ... in`, `Object.keys` and
  `JSON.stringify` visit them. What the object inherits from
  `Object.prototype` shows where the code meets it: the call
  `validTokens.hasOwnProperty(...)` and the assignment to the key `__proto__`.
* The libraries the file calls but does not define (`bcrypt`, `JSON`) are the
  fields of a `Lib` record; what a theorem needs of them is a hypothesis, and
  `refLib` is a concrete library on which the hypotheses hold.
* `crypto.randomBytes`, the bcrypt salt and the disk faults are inputs (`Env`).
* `res.setHeader` raises for a value that holds a character outside tab,
  `0x20`-`0x7e` and `0x80`-`0xff` (`validHeaderValue`).
* A handler returns the new state and an `Outcome`: the response it sent, or
  the exception it raised. `POST /tokens` is also given in its two parts,
  before and after `await hashToken(newToken)`, between which the event loop
  may run another handler.
-/

namespace AuthService

/-! ## Constants (server.js, lines 10-15) -/

/-- The `saltRounds` constant: cost factor handed to bcrypt. -/
def saltRounds : Nat := 10

/-- The `tokenPrefix` constant. -/
def tokenPrefix : String := "sk-proj-"

/-- The `tokenLength` constant: length of the random part of a token. -/
def tokenLength : Nat := 48

/-- The `internalTokensFilePath` constant. -/
def internalTokensFilePath : String := "/data/tokens.json"

/-- The `internalTokensDirPath` constant. -/
def internalTokensDirPath : String := "/data"

/-! ## `generateToken` (lines 22-28) -/

/-- The base64url alphabet of RFC 4648, section 5. -/
def base64urlAlphabet : List Char :=
  "ABCDEFGHIJKLMNOPQRSTUVWXYZabcdefghijklmnopqrstuvwxyz0123456789-_".toList

/-- The character that encodes the 6-bit group `i`. -/
def base64urlChar (i : Nat) : Char :=
  base64urlAlphabet.getD (i % 64) 'A'

/-- `Buffer.prototype.toString('base64url')`: three bytes give four characters,
a final group of one or two bytes gives two or three, and no padding is
written. -/
def base64url : List Nat → List Char
  | [] => []
  | [a] => [base64urlChar (a / 4), base64urlChar (a % 4 * 16)]
  | [a, b] =>
      [base64urlChar (a / 4), base64urlChar (a % 4 * 16 + b / 16),
        base64urlChar (b % 16 * 4)]
  | a :: b :: c :: rest =>
      base64urlChar (a / 4) :: base64urlChar (a % 4 * 16 + b / 16) ::
        base64urlChar (b % 16 * 4 + c / 64) :: base64urlChar (c % 64) :: base64url rest

/-- `crypto.randomBytes(n)`: `n` bytes read from the entropy source. -/
def randomBytes (entropy : Nat → Nat) (n : Nat) : List Nat :=
  (List.range n).map (fun i => entropy i % 256)

/-- `.replace(/=+$/, '')`: the trailing run of `=` is removed. -/
def stripPadding (s : List Char) : List Char :=
  (s.reverse.dropWhile (fun c => c == '=')).reverse

/-- `generateToken()`: `Math.ceil(tokenLength * 3 / 4)` random bytes,
base64url-encoded, padding stripped, cut to `tokenLength` characters, behind
`tokenPrefix`. -/
def generateToken (entropy : Nat → Nat) : String :=
  let randomString :=
    ((stripPadding (base64url (randomBytes entropy ((tokenLength * 3 + 3) / 4)))).take
      tokenLength)
  tokenPrefix ++ String.mk randomString

/-- The random part of a token, as a character list. -/
def tokenBody (entropy : Nat → Nat) : List Char :=
  (stripPadding (base64url (randomBytes entropy ((tokenLength * 3 + 3) / 4)))).take tokenLength

/-! ## JavaScript values and plain objects -/

/-- A JavaScript value that `JSON.parse` can produce. A number is its IEEE-754
binary64 bit pattern; the members of a nested object are kept in source
order. -/
inductive JsValue where
  | null
  | bool (b : Bool)
  | number (bits : Nat)
  | string (s : String)
  | array (items : List JsValue)
  | object (props : List (String × JsValue))

/-- `ToBoolean`: `null`, `false`, `+0`, `-0`, `NaN` and `""` are falsy. -/
def JsValue.truthy : JsValue → Bool
  | .null => false
  | .bool b => b
  | .number bits =>
      decide (0 < bits % 2 ^ 63) && decide (bits % 2 ^ 63 ≤ 0x7FF0000000000000)
  | .string s => decide (s ≠ "")
  | .array _ => true
  | .object _ => true

/-- The own enumerable string-keyed properties of a plain object (prototype
`Object.prototype`), in `OrdinaryOwnPropertyKeys` order: array indices in
ascending order, then the other keys in creation order. -/
abbrev JsObject := List (String × JsValue)

/-- An array index is the canonical decimal form of an integer in
`[0, 2^32 - 2]`. -/
def arrayIndex? (key : String) : Option Nat :=
  let cs := key.toList
  if cs ≠ [] ∧ cs.all Char.isDigit ∧ (cs.head? ≠ some '0' ∨ cs.length = 1) then
    let n := cs.foldl (fun acc c => acc * 10 + (c.toNat - 48)) 0
    if n ≤ 4294967294 then some n else none
  else none

namespace JsObject

/-- `Object.prototype.hasOwnProperty.call(o, key)`. -/
def hasOwn (o : JsObject) (key : String) : Bool :=
  o.any (fun p => p.1 == key)

/-- `Object.keys(o)`, also the keys `for (const k in o)` visits. -/
def keys (o : JsObject) : List String :=
  o.map Prod.fst

/-- A new property whose key is the array index `i` goes before the first
property that is not an array index or is a larger one. -/
def insertIndexed (i : Nat) (key : String) (v : JsValue) : JsObject → JsObject
  | [] => [(key, v)]
  | p :: rest =>
      match arrayIndex? p.1 with
      | some j => if i < j then (key, v) :: p :: rest else p :: insertIndexed i key v rest
      | none => (key, v) :: p :: rest

/-- `CreateDataProperty(o, key, v)`: an existing own property keeps its place
and takes the value, a new one takes its place in the key order. -/
def define (o : JsObject) (key : String) (v : JsValue) : JsObject :=
  if o.hasOwn key then o.map (fun p => if p.1 == key then (key, v) else p)
  else
    match arrayIndex? key with
    | some i => insertIndexed i key v o
    | none => o ++ [(key, v)]

/-- The assignment `o[key] = s` of a string `s`: an own property is written;
otherwise, for the key `__proto__`, the setter inherited from
`Object.prototype` runs, which ignores a value that is neither an object nor
`null`; otherwise an own property is created. -/
def assignString (o : JsObject) (key : String) (s : String) : JsObject :=
  if o.hasOwn key then o.define key (.string s)
  else if key = "__proto__" then o
  else o.define key (.string s)

/-- `delete o[key]`. -/
def delete (o : JsObject) (key : String) : JsObject :=
  o.filter (fun p => !(p.1 == key))

/-- The object `JSON.parse` builds from the members of an object literal:
each member is defined in source order. -/
def ofProps (props : List (String × JsValue)) : JsObject :=
  props.foldl (fun o p => o.define p.1 p.2) []

/-- The call `o.hasOwnProperty(key)`: the method is looked up on `o` first,
and an own property named `hasOwnProperty` (never callable here) makes the
call raise a TypeError (`none`). -/
def callHasOwnProperty (o : JsObject) (key : String) : Option Bool :=
  if o.hasOwn "hasOwnProperty" then none else some (o.hasOwn key)

end JsObject

/-! ## JavaScript string methods -/

/-- `s.startsWith(pre)`. -/
def startsWith (s pre : String) : Bool :=
  pre.toList.isPrefixOf s.toList

/-- `s.split(sep)` for a one-character separator, on character lists. -/
def splitChars (sep : Char) : List Char → List (List Char)
  | [] => [[]]
  | c :: cs =>
      if c = sep then [] :: splitChars sep cs
      else
        match splitChars sep cs with
        | [] => [[c]]
        | w :: ws => (c :: w) :: ws

/-- `s.split(' ')`. -/
def splitSpace (s : String) : List String :=
  (splitChars ' ' s.toList).map String.mk

/-- The `WhiteSpace` and `LineTerminator` code points that `trim` removes. -/
def isJsWhiteSpace (c : Char) : Bool :=
  c.toNat ∈ [0x09, 0x0A, 0x0B, 0x0C, 0x0D, 0x20, 0xA0, 0x1680, 0x2028, 0x2029, 0x202F,
    0x205F, 0x3000, 0xFEFF] || (decide (0x2000 ≤ c.toNat) && decide (c.toNat ≤ 0x200A))

/-- `s.trim()`. -/
def trim (s : String) : String :=
  String.mk ((s.toList.dropWhile isJsWhiteSpace).reverse.dropWhile isJsWhiteSpace).reverse

/-! ## Libraries and environment -/

/-- The library functions the service calls. -/
structure Lib where
  /-- `bcrypt.hash(data, rounds)` computed with the given salt entropy; `none`
  when the promise is rejected. -/
  bcryptHash : String → Nat → Nat → Option String
  /-- `bcrypt.compare(data, encrypted)`; `none` when the promise is rejected. -/
  bcryptCompare : String → JsValue → Option Bool
  /-- `JSON.parse(text)`; `none` when it raises a SyntaxError. -/
  jsonParse : String → Option JsValue
  /-- `JSON.stringify(o, null, 2)`. -/
  jsonStringify : JsObject → String

/-- The storage directory and file as the service sees them. -/
structure FileSystem where
  /-- `fs.existsSync(internalTokensDirPath)`. -/
  dirExists : Bool
  /-- The content of `internalTokensFilePath` when the file exists. -/
  file : Option String

/-- The process state: the variable `validTokens` and the disk. -/
structure State where
  validTokens : JsObject
  disk : FileSystem

/-- The environment variables read at startup. -/
structure Config where
  /-- `process.env.ADMIN_TOKEN`. -/
  adminToken : Option String

/-- What the outside world supplies while one request (or startup) runs. -/
structure Env where
  /-- The source `crypto.randomBytes` reads. -/
  entropy : Nat → Nat
  /-- The entropy bcrypt draws its salt from. -/
  salt : Nat
  /-- `fs.mkdirSync` raises. -/
  mkdirFails : Bool
  /-- `fs.readFileSync` raises. -/
  readFails : Bool
  /-- `fs.writeFileSync` raises. -/
  writeFails : Bool
  /-- What a write that raises leaves of the file, given what it held: the
  same when the file could not be opened, a truncated text otherwise. -/
  tornFile : Option String → Option String

/-! ## Helper functions (lines 30-84) -/

/-- `hashToken(token)`. -/
def hashToken (L : Lib) (env : Env) (token : String) : Option String :=
  L.bcryptHash token saltRounds env.salt

/-- `verifyToken(providedToken, storedHash)`; `none` when the awaited
comparison is rejected. `providedToken` is `none` for `undefined`. -/
def verifyToken (L : Lib) (providedToken : Option String) (storedHash : JsValue) :
    Option Bool :=
  match providedToken with
  | none => some false
  | some t =>
      if t = "" ∨ storedHash.truthy = false then some false
      else L.bcryptCompare t storedHash

/-- `saveTokens()`: the new disk, and whether the write was done (`false` when
an error was caught and logged). -/
def saveTokens (L : Lib) (env : Env) (validTokens : JsObject) (disk : FileSystem) :
    FileSystem × Bool :=
  if disk.dirExists = false ∧ env.mkdirFails = true then (disk, false)
  else
    let disk1 : FileSystem := { disk with dirExists := true }
    if env.writeFails = true then ({ disk1 with file := env.tornFile disk.file }, false)
    else ({ disk1 with file := some (L.jsonStringify validTokens) }, true)

/-- `loadTokens()`: the state after startup. -/
def loadTokens (L : Lib) (env : Env) (disk : FileSystem) : State :=
  if disk.dirExists = false ∧ env.mkdirFails = true then ⟨[], disk⟩
  else
    let disk1 : FileSystem := { disk with dirExists := true }
    match disk1.file with
    | some data =>
        if env.readFails = true then ⟨[], disk1⟩
        else
          match L.jsonParse data with
          | none => ⟨[], disk1⟩
          | some (.object props) => ⟨JsObject.ofProps props, disk1⟩
          | some _ => ⟨[], (saveTokens L env [] disk1).1⟩
    | none => ⟨[], (saveTokens L env [] disk1).1⟩

/-! ## Responses -/

/-- What a handler writes back. -/
inductive Response where
  /-- `res.status(code).send(text)`. -/
  | text (code : Nat) (body : String)
  /-- `200 'OK'` with the header `X-Authenticated-User`. -/
  | authenticated (user : String)
  /-- `201 { message: 'Token created successfully.', name, token }`. -/
  | created (name token : String)
  /-- `200` with the JSON array `Object.keys(validTokens)`. -/
  | names (list : List String)
  /-- `200 { message: 'Token deleted successfully.', name }`. -/
  | deleted (name : String)
  deriving DecidableEq

/-- The HTTP status of a response. -/
def Response.status : Response → Nat
  | .text code _ => code
  | .authenticated _ => 200
  | .created _ _ => 201
  | .names _ => 200
  | .deleted _ => 200

/-- How a handler ends: it sends a response, or an exception leaves it before
any response is sent. -/
inductive Outcome where
  | sent (r : Response)
  | threw
  deriving DecidableEq

/-- The status the caller receives from the handler, if any. -/
def Outcome.status? : Outcome → Option Nat
  | .sent r => some r.status
  | .threw => none

/-! ## Middleware (lines 89-99) -/

/-- `checkAdminToken`: the response it sends, or `none` when it calls
`next()`. `authHeader` is `req.headers.authorization`. -/
def checkAdminToken (cfg : Config) (authHeader : Option String) : Option Response :=
  match cfg.adminToken with
  | none => some (.text 500 "Server configuration error: Admin token not set.")
  | some adminToken =>
      if adminToken = "" then
        some (.text 500 "Server configuration error: Admin token not set.")
      else
        match authHeader with
        | none => some (.text 401 "Unauthorized: Invalid or missing admin token.")
        | some h =>
            if h = "" ∨ h ≠ "Bearer " ++ adminToken then
              some (.text 401 "Unauthorized: Invalid or missing admin token.")
            else none

/-! ## `GET /auth` (lines 104-134) -/

/-- The loop `for (const name in validTokens)`: `some (some name)` at the first
name whose hash verifies, `some none` when the properties are exhausted, `none`
when an awaited comparison is rejected. -/
def findUser (L : Lib) (providedToken : Option String) :
    List (String × JsValue) → Option (Option String)
  | [] => some none
  | (name, hash) :: rest =>
      match verifyToken L providedToken hash with
      | none => none
      | some true => some (some name)
      | some false => findUser L providedToken rest

/-- `authHeader.split(' ')[1]`. -/
def providedToken (authHeader : String) : Option String :=
  (splitSpace authHeader)[1]?

/-- The characters Node accepts in a header value: tab, `0x20` to `0x7e` and
`0x80` to `0xff`. -/
def isHeaderChar (c : Char) : Bool :=
  decide (c.toNat = 9) || (decide (32 ≤ c.toNat) && decide (c.toNat ≤ 126))
    || (decide (128 ≤ c.toNat) && decide (c.toNat ≤ 255))

/-- `res.setHeader(name, value)` accepts the value; otherwise it raises
`ERR_INVALID_CHAR`. -/
def validHeaderValue (value : String) : Bool :=
  value.toList.all isHeaderChar

/-- The end of the `GET /auth` handler (lines 125-133), `authenticatedUser`
being `none` for `null`: for a truthy name the header `X-Authenticated-User`
is set, which raises when the name is no header value, and 200 is sent;
otherwise 401 is sent. -/
def respondAuth (authenticatedUser : Option String) : Outcome :=
  match authenticatedUser with
  | some user =>
      if user ≠ "" then
        if validHeaderValue user = true then .sent (.authenticated user) else .threw
      else .sent (.text 401 "Unauthorized: Invalid token.")
  | none => .sent (.text 401 "Unauthorized: Invalid token.")

/-- The handler of `GET /auth`. It reads `validTokens` and changes nothing. -/
def getAuth (L : Lib) (st : State) (authHeader : Option String) : Outcome :=
  match authHeader with
  | none => .sent (.text 401 "Unauthorized: Missing Bearer token.")
  | some h =>
      if h = "" ∨ startsWith h "Bearer " = false then
        .sent (.text 401 "Unauthorized: Missing Bearer token.")
      else
        match findUser L (providedToken h) st.validTokens with
        | none => .threw
        | some authenticatedUser => respondAuth authenticatedUser

/-! ## `POST /tokens` (lines 137-159) -/

/-- A `POST /tokens` handler suspended at `await hashToken(newToken)`. -/
structure PendingCreate where
  name : String
  newToken : String
  /-- What the awaited promise settles to: the hash, or `none` for a rejection. -/
  newHash : Option String

/-- Where the first, synchronous part of `POST /tokens` stops. -/
inductive CreateStep where
  | done (o : Outcome)
  | awaiting (p : PendingCreate)

/-- `POST /tokens` up to the `await`: `checkAdminToken`, the check of
`req.body.name` (`none` is `undefined`), the conflict check, `generateToken()`
and the call of `hashToken`. -/
def postTokensBegin (L : Lib) (cfg : Config) (env : Env) (st : State)
    (authHeader : Option String) (name : Option JsValue) : CreateStep :=
  match checkAdminToken cfg authHeader with
  | some r => .done (.sent r)
  | none =>
      match name with
      | some (.string n) =>
          if n = "" ∨ trim n = "" then
            .done (.sent (.text 400
              "Bad Request: \"name\" field (non-empty string) is required for the token."))
          else
            match st.validTokens.callHasOwnProperty n with
            | none => .done .threw
            | some true =>
                .done (.sent (.text 409
                  ("Conflict: A token with the name '" ++ n ++ "' already exists.")))
            | some false =>
                let newToken := generateToken env.entropy
                .awaiting ⟨n, newToken, hashToken L env newToken⟩
      | _ =>
          .done (.sent (.text 400
            "Bad Request: \"name\" field (non-empty string) is required for the token."))

/-- `POST /tokens` after the `await`: the store write, `saveTokens()` and the
201 response; or the `catch` branch when hashing was rejected. The `Env` is the
one of the moment the handler resumes. -/
def postTokensResume (L : Lib) (env : Env) (st : State) (p : PendingCreate) :
    State × Outcome :=
  match p.newHash with
  | some newHash =>
      let validTokens := st.validTokens.assignString p.name newHash
      (⟨validTokens, (saveTokens L env validTokens st.disk).1⟩,
        .sent (.created p.name p.newToken))
  | none => (st, .sent (.text 500 "Internal Server Error: Could not hash token."))

/-- The handler of `POST /tokens` when nothing else runs during the `await`. -/
def postTokens (L : Lib) (cfg : Config) (env : Env) (st : State)
    (authHeader : Option String) (name : Option JsValue) : State × Outcome :=
  match postTokensBegin L cfg env st authHeader name with
  | .done o => (st, o)
  | .awaiting p => postTokensResume L env st p

/-! ## `GET /tokens` (lines 162-164) -/

/-- The handler of `GET /tokens`. -/
def getTokens (cfg : Config) (st : State) (authHeader : Option String) : Outcome :=
  match checkAdminToken cfg authHeader with
  | some r => .sent r
  | none => .sent (.names st.validTokens.keys)

/-! ## `DELETE /tokens/:name` (lines 167-178) -/

/-- The handler of `DELETE /tokens/:name`; `nameToDelete` is
`req.params.name`. -/
def deleteToken (L : Lib) (cfg : Config) (env : Env) (st : State)
    (authHeader : Option String) (nameToDelete : String) : State × Outcome :=
  match checkAdminToken cfg authHeader with
  | some r => (st, .sent r)
  | none =>
      match st.validTokens.callHasOwnProperty nameToDelete with
      | none => (st, .threw)
      | some false =>
          (st, .sent (.text 404
            ("Not Found: Token with name '" ++ nameToDelete ++ "' does not exist.")))
      | some true =>
          let validTokens := st.validTokens.delete nameToDelete
          (⟨validTokens, (saveTokens L env validTokens st.disk).1⟩,
            .sent (.deleted nameToDelete))

/-! ## The service as a whole -/

/-- A request as the routing layer delivers it. -/
inductive Request where
  | getAuth (authHeader : Option String)
  | postTokens (authHeader : Option String) (name : Option JsValue)
  | getTokens (authHeader : Option String)
  | deleteToken (authHeader : Option String) (name : String)

/-- One request handled from start to end. -/
def handle (L : Lib) (cfg : Config) (env : Env) (st : State) : Request → State × Outcome
  | .getAuth h => (st, getAuth L st h)
  | .postTokens h name => postTokens L cfg env st h name
  | .getTokens h => (st, getTokens cfg st h)
  | .deleteToken h name => deleteToken L cfg env st h name

/-- The requests behind the admin gate. -/
def Request.isManagement : Request → Bool
  | .getAuth _ => false
  | _ => true

/-! ## Two `POST /tokens` requests in flight

A handler runs without interruption up to its `await` and again from the
moment it resumes; between the two, the event loop may run a part of another
handler. -/

/-- A `POST /tokens` request together with what the outside world supplies
while each of its two parts runs. -/
structure CreateRequest where
  authHeader : Option String
  name : Option JsValue
  /-- The environment while the part before the `await` runs. -/
  beginEnv : Env
  /-- The environment while the part after the `await` runs. -/
  resumeEnv : Env

/-- The credential the request is given by `generateToken`. -/
def CreateRequest.token (r : CreateRequest) : String :=
  generateToken r.beginEnv.entropy

/-- How far a request has come. -/
inductive Progress where
  | waiting
  | suspended (p : PendingCreate)
  | finished (o : Outcome)

/-- The parts of the two requests `A` and `B` the event loop can run next. -/
inductive Turn where
  | beginA
  | resumeA
  | beginB
  | resumeB
  deriving DecidableEq, Fintype

/-- The shared state and the progress of both requests. -/
structure Race where
  st : State
  a : Progress
  b : Progress

/-- Runs the part of a request before its `await`. -/
def beginTurn (L : Lib) (cfg : Config) (r : CreateRequest) (st : State) : Progress → Progress
  | .waiting =>
      match postTokensBegin L cfg r.beginEnv st r.authHeader r.name with
      | .done o => .finished o
      | .awaiting p => .suspended p
  | other => other

/-- Runs the part of a request after its `await`. -/
def resumeTurn (L : Lib) (r : CreateRequest) (st : State) : Progress → State × Progress
  | .suspended p => ((postTokensResume L r.resumeEnv st p).1,
      .finished (postTokensResume L r.resumeEnv st p).2)
  | other => (st, other)

/-- One turn of the event loop. -/
def Race.turn (L : Lib) (cfg : Config) (ra rb : CreateRequest) (r : Race) : Turn → Race
  | .beginA => { r with a := beginTurn L cfg ra r.st r.a }
  | .resumeA => { r with st := (resumeTurn L ra r.st r.a).1, a := (resumeTurn L ra r.st r.a).2 }
  | .beginB => { r with b := beginTurn L cfg rb r.st r.b }
  | .resumeB => { r with st := (resumeTurn L rb r.st r.b).1, b := (resumeTurn L rb r.st r.b).2 }

/-- The two requests run from the state `st` in the order of the schedule. -/
def race (L : Lib) (cfg : Config) (ra rb : CreateRequest) (st : State)
    (schedule : List Turn) : Race :=
  schedule.foldl (Race.turn L cfg ra rb) ⟨st, .waiting, .waiting⟩

/-- The schedule runs each of the four parts once, and each request begins
before it resumes. -/
def isInterleaving (schedule : List Turn) : Bool :=
  schedule.length == 4 && decide schedule.Nodup
    && decide (schedule.indexOf Turn.beginA < schedule.indexOf Turn.resumeA)
    && decide (schedule.indexOf Turn.beginB < schedule.indexOf Turn.resumeB)

/-- The six interleavings of two requests, each beginning before it resumes. -/
def interleavings : List (List Turn) :=
  [[.beginA, .resumeA, .beginB, .resumeB], [.beginB, .resumeB, .beginA, .resumeA],
    [.beginA, .beginB, .resumeA, .resumeB], [.beginB, .beginA, .resumeA, .resumeB],
    [.beginA, .beginB, .resumeB, .resumeA], [.beginB, .beginA, .resumeB, .resumeA]]

/-- Both conflict checks run before either store write. -/
def overlapped (schedule : List Turn) : Bool :=
  schedule[1]? == some .beginA || schedule[1]? == some .beginB

/-- The store write of `A` is the last one. -/
def lastWriterIsA (schedule : List Turn) : Bool :=
  schedule.getLast? == some .resumeA

/-- The status a request was answered with, if it has finished with a
response. -/
def Progress.status? : Progress → Option Nat
  | .finished o => o.status?
  | _ => none

/-- The request whose credential the store holds in the end is `A`: the last
to write when the requests overlap, the first to run otherwise. -/
def winnerIsA (schedule : List Turn) : Bool :=
  if overlapped schedule then lastWriterIsA schedule
  else schedule.head? == some .beginA

/-! ## A reference library

A concrete `Lib` on which the assumptions made of the libraries can be checked
and the handlers evaluated. Its digest keeps the data in clear behind a salt,
so it stands for bcrypt only as far as the laws below go; its JSON codec
covers the texts the service writes (a flat object of strings) and the
top-level values `null`, `true`, `false`, `[]` and a string. -/

/-- The reference digest: `$2b$10$`, one dot per unit of salt, `$`, the data. -/
def refHash (data : String) (_rounds : Nat) (salt : Nat) : Option String :=
  some (String.mk ("$2b$10$".toList ++ (List.replicate salt '.' ++ '$' :: data.toList)))

/-- The reference comparison: a string is compared with the data behind its
salt, any other value is rejected. -/
def refCompare (data : String) : JsValue → Option Bool
  | .string enc =>
      match (enc.toList.drop 7).dropWhile (fun c => c == '.') with
      | c :: rest =>
          some (decide (c = '$') && decide (enc.toList.take 7 = "$2b$10$".toList)
            && decide (rest = data.toList))
      | [] => some false
  | _ => none

/-- A lower-case hexadecimal digit. -/
def hexDigit (n : Nat) : Char :=
  "0123456789abcdef".toList.getD n '0'

/-- The value of a hexadecimal digit. -/
def hexValue? (c : Char) : Option Nat :=
  if '0'.toNat ≤ c.toNat ∧ c.toNat ≤ '9'.toNat then some (c.toNat - '0'.toNat)
  else if 'a'.toNat ≤ c.toNat ∧ c.toNat ≤ 'f'.toNat then some (c.toNat - 'a'.toNat + 10)
  else if 'A'.toNat ≤ c.toNat ∧ c.toNat ≤ 'F'.toNat then some (c.toNat - 'A'.toNat + 10)
  else none

/-- `QuoteJSONString` for one character. -/
def quoteChar (c : Char) : List Char :=
  if c = '"' then ['\\', '"']
  else if c = '\\' then ['\\', '\\']
  else if c = '\x08' then ['\\', 'b']
  else if c = '\x0c' then ['\\', 'f']
  else if c = '\n' then ['\\', 'n']
  else if c = '\r' then ['\\', 'r']
  else if c = '\t' then ['\\', 't']
  else if c.toNat < 32 then
    ['\\', 'u', '0', '0', hexDigit (c.toNat / 16), hexDigit (c.toNat % 16)]
  else [c]

/-- The characters of a quoted string between its quotes. -/
def quoteBody : List Char → List Char
  | [] => []
  | c :: cs => quoteChar c ++ quoteBody cs

/-- A JSON string literal. -/
def quote (s : String) : List Char :=
  '"' :: (quoteBody s.toList ++ ['"'])

/-- The character a one-letter escape stands for. -/
def simpleEscape? (e : Char) : Option Char :=
  if e = '"' then some '"'
  else if e = '\\' then some '\\'
  else if e = '/' then some '/'
  else if e = 'b' then some '\x08'
  else if e = 'f' then some '\x0c'
  else if e = 'n' then some '\n'
  else if e = 'r' then some '\r'
  else if e = 't' then some '\t'
  else none

/-- The character a four-digit escape stands for. -/
def unicodeEscape? (a b c d : Char) : Option Char :=
  match hexValue? a, hexValue? b, hexValue? c, hexValue? d with
  | some x, some y, some z, some w => some (Char.ofNat (((x * 16 + y) * 16 + z) * 16 + w))
  | _, _, _, _ => none

/-- Reads a string literal after its opening quote: the string and the text
behind the closing quote. -/
def unquoteBody : List Char → Option (List Char × List Char)
  | [] => none
  | c :: rest =>
      if c = '"' then some ([], rest)
      else if c = '\\' then
        match rest with
        | [] => none
        | e :: rest1 =>
            if e = 'u' then
              match rest1 with
              | a :: b :: c2 :: d :: rest2 =>
                  match unicodeEscape? a b c2 d, unquoteBody rest2 with
                  | some ch, some (s, r) => some (ch :: s, r)
                  | _, _ => none
              | _ => none
            else
              match simpleEscape? e, unquoteBody rest1 with
              | some ch, some (s, r) => some (ch :: s, r)
              | _, _ => none
      else if c.toNat < 32 then none
      else
        match unquoteBody rest with
        | some (s, r) => some (c :: s, r)
        | none => none

/-- JSON white space. -/
def isJsonWs (c : Char) : Bool :=
  c == ' ' || c == '\n' || c == '\r' || c == '\t'

/-- Drops leading white space. -/
def skipWs (s : List Char) : List Char :=
  s.dropWhile isJsonWs

/-- Reads the members of an object whose values are strings, from the opening
quote of the first key to the closing brace. -/
def parseMembers : Nat → List Char → Option (List (String × JsValue) × List Char)
  | 0, _ => none
  | fuel + 1, s =>
      match s with
      | [] => none
      | q :: s1 =>
          if q ≠ '"' then none
          else
            match unquoteBody s1 with
            | none => none
            | some (k, s2) =>
                match skipWs s2 with
                | [] => none
                | colon :: s3 =>
                    if colon ≠ ':' then none
                    else
                      match skipWs s3 with
                      | [] => none
                      | q2 :: s4 =>
                          if q2 ≠ '"' then none
                          else
                            match unquoteBody s4 with
                            | none => none
                            | some (v, s5) =>
                                match skipWs s5 with
                                | [] => none
                                | sep :: s6 =>
                                    if sep = '}' then
                                      some ([(String.mk k, .string (String.mk v))], s6)
                                    else if sep = ',' then
                                      match parseMembers fuel (skipWs s6) with
                                      | some (ms, r) =>
                                          some ((String.mk k, .string (String.mk v)) :: ms, r)
                                      | none => none
                                    else none

/-- The value a text denotes when only white space follows it. -/
def endOfText (v : JsValue) (rest : List Char) : Option JsValue :=
  if skipWs rest = [] then some v else none

/-- The reference `JSON.parse`. -/
def refJsonParse (text : String) : Option JsValue :=
  match skipWs text.toList with
  | [] => none
  | c :: s1 =>
      if c = '{' then
        match skipWs s1 with
        | [] => none
        | d :: s2 =>
            if d = '}' then endOfText (.object []) s2
            else
              match parseMembers (d :: s2).length (d :: s2) with
              | some (ms, r) => endOfText (.object ms) r
              | none => none
      else if c = '[' then
        match skipWs s1 with
        | [] => none
        | d :: s2 => if d = ']' then endOfText (.array []) s2 else none
      else if c = '"' then
        match unquoteBody s1 with
        | some (s, r) => endOfText (.string (String.mk s)) r
        | none => none
      else if (c :: s1).take 4 = "null".toList then endOfText .null (s1.drop 3)
      else if (c :: s1).take 4 = "true".toList then endOfText (.bool true) (s1.drop 3)
      else if (c :: s1).take 5 = "false".toList then endOfText (.bool false) (s1.drop 4)
      else none

/-- The reference rendering of a property value: a string is quoted; the
store the service writes holds nothing else, and any other value is written
as its literal or as `null`. -/
def refValue : JsValue → List Char
  | .string s => quote s
  | .bool true => "true".toList
  | .bool false => "false".toList
  | _ => "null".toList

/-- The lines of the members, each indented by two spaces, up to and
including the closing brace. -/
def refMembers : List (String × JsValue) → List Char
  | [] => ['}']
  | [p] => ' ' :: ' ' :: (quote p.1 ++ (':' :: ' ' :: (refValue p.2 ++ ['\n', '}'])))
  | p :: q :: rest =>
      ' ' :: ' ' :: (quote p.1 ++ (':' :: ' ' :: (refValue p.2 ++
        (',' :: '\n' :: refMembers (q :: rest)))))

/-- The reference `JSON.stringify(o, null, 2)`. -/
def refJsonStringify (o : JsObject) : String :=
  match o with
  | [] => "{}"
  | p :: rest => String.mk ('{' :: '\n' :: refMembers (p :: rest))

/-- The reference library. -/
def refLib : Lib where
  bcryptHash := refHash
  bcryptCompare := refCompare
  jsonParse := refJsonParse
  jsonStringify := refJsonStringify

/-! ## Predicates used to state the properties -/

/-- The order of two array-index ranks in an object's own keys: indices
ascend, and every index comes before every other key. -/
def orderedRanks : Option Nat → Option Nat → Prop
  | some i, some j => i ≤ j
  | some _, none => True
  | none, some _ => False
  | none, none => True

/-- The property `p` may come before the property `q` in an object: the keys
differ and are in own-key order. -/
def keyBefore (p q : String × JsValue) : Prop :=
  p.1 ≠ q.1 ∧ orderedRanks (arrayIndex? p.1) (arrayIndex? q.1)

/-- The list is the own-property list of an object: no key twice, keys in
own-key order. -/
def Canonical (o : JsObject) : Prop :=
  o.Pairwise keyBefore

/-- Every value of the object is a string. -/
def StringValued (o : List (String × JsValue)) : Prop :=
  ∀ p ∈ o, ∃ s, p.2 = .string s

/-- The value is a digest: a string `bcrypt.hash` returned at the configured
cost. -/
def IsDigest (L : Lib) (v : JsValue) : Prop :=
  ∃ data salt enc, L.bcryptHash data saltRounds salt = some enc ∧ v = .string enc

/-- The value is a plaintext credential: a string `generateToken` can return. -/
def IsCredential (v : JsValue) : Prop :=
  ∃ entropy, v = .string (generateToken entropy)

/-- The states the service reaches, whatever the requests, the entropy and
the disk faults, from a store that holds digests only: the empty store, or a
store the service built before. -/
inductive Reachable (L : Lib) (cfg : Config) : State → Prop
  | start (st : State) : (∀ p ∈ st.validTokens, IsDigest L p.2) → Reachable L cfg st
  | step {st : State} (env : Env) (req : Request) :
      Reachable L cfg st → Reachable L cfg (handle L cfg env st req).1

/-- The assumption made of the JSON library: parsing the serialization of a
plain object whose values are strings gives back the members of that object,
in its own-key order. -/
def Lib.RoundTrips (L : Lib) : Prop :=
  ∀ o : JsObject, Canonical o → StringValued o →
    L.jsonParse (L.jsonStringify o) = some (.object o)

/-- The text of one member `"k": "v"` from the opening quote of the key, with
`rest` behind the closing quote of the value. -/
def memberText (k v : String) (rest : List Char) : List Char :=
  '"' :: (quoteBody k.toList ++ '"' :: ':' :: ' ' :: '"' :: (quoteBody v.toList ++ '"' :: rest))

/-- The store a start that can create the directory and read the file takes
from the storage file. -/
def storeOfFile (L : Lib) (file : Option String) : JsObject :=
  match file with
  | some data =>
      match L.jsonParse data with
      | some (.object props) => JsObject.ofProps props
      | _ => []
  | none => []

/-- The states the service reaches after startup on the disk `disk0` through
requests during which no directory creation and no file write fails. -/
inductive Serving (L : Lib) (cfg : Config) (env0 : Env) (disk0 : FileSystem) : State → Prop
  | load : Serving L cfg env0 disk0 (loadTokens L env0 disk0)
  | step {st : State} (env : Env) (req : Request) :
      env.mkdirFails = false → env.writeFails = false →
      Serving L cfg env0 disk0 st → Serving L cfg env0 disk0 (handle L cfg env st req).1

/-! ## Sample inputs -/

/-- A configuration with the administrative secret `adm`. -/
def sampleConfig : Config := ⟨some "adm"⟩

/-- A configuration without `ADMIN_TOKEN`. -/
def lockedConfig : Config := ⟨none⟩

/-- The header an administrator sends under `sampleConfig`. -/
def adminHeader : Option String := some "Bearer adm"

/-- An environment whose entropy source yields zero bytes, without disk
faults. -/
def sampleEnv : Env := ⟨fun _ => 0, 0, false, false, false, id⟩

/-- An environment whose entropy source yields bytes of value one. -/
def otherEnv : Env := ⟨fun _ => 1, 1, false, false, false, id⟩

/-- An environment in which `fs.writeFileSync` raises and leaves the file as
it was. -/
def failingEnv : Env := ⟨fun _ => 0, 0, false, false, true, id⟩

/-- A started service with an empty store. -/
def emptyState : State := ⟨[], ⟨true, some "{}"⟩⟩

/-- The state after `svc-a` was issued a credential from `sampleEnv`. -/
def issuedState : State :=
  (postTokens refLib sampleConfig sampleEnv emptyState adminHeader (some (.string "svc-a"))).1

/-- The credential `generateToken` makes from zero bytes. -/
def sampleToken : String := "sk-proj-AAAAAAAAAAAAAAAAAAAAAAAAAAAAAAAAAAAAAAAAAAAAAAAA"

/-- A disk on which neither the directory nor the file exists yet. -/
def blankDisk : FileSystem := ⟨false, none⟩

/-- A text that is not valid JSON: an opening brace followed by `oops`. -/
def corruptText : String := "\x7boops"

/-- A disk whose storage file is not valid JSON. -/
def corruptDisk : FileSystem := ⟨true, some corruptText⟩

/-- A disk whose storage file holds a JSON value that is not an object. -/
def arrayDisk : FileSystem := ⟨true, some "[]"⟩

/-- The state after startup on `blankDisk` and one Create(svc-a). -/
def servingState : State :=
  (handle refLib sampleConfig sampleEnv (loadTokens refLib sampleEnv blankDisk)
    (.postTokens adminHeader (some (.string "svc-a")))).1

/-- Create(svc-a) with the entropy of `sampleEnv`. -/
def requestA : CreateRequest := ⟨adminHeader, some (.string "svc-a"), sampleEnv, sampleEnv⟩

/-- Create(svc-a) with the entropy of `otherEnv`. -/
def requestB : CreateRequest := ⟨adminHeader, some (.string "svc-a"), otherEnv, otherEnv⟩

/-- The state after Create(`__proto__`) on the empty store. -/
def protoState : State :=
  (postTokens refLib sampleConfig sampleEnv emptyState adminHeader
    (some (.string "__proto__"))).1

/-- The state after Create(`hasOwnProperty`) on the empty store. -/
def shadowedState : State :=
  (postTokens refLib sampleConfig sampleEnv emptyState adminHeader
    (some (.string "hasOwnProperty"))).1

/-- The state after Create of the name `a`, line feed, `b` on the empty
store. -/
def newlineState : State :=
  (postTokens refLib sampleConfig sampleEnv emptyState adminHeader
    (some (.string "a\nb"))).1

/-- The state after Create(`svc-λ`) on the empty store. -/
def lambdaState : State :=
  (postTokens refLib sampleConfig sampleEnv emptyState adminHeader
    (some (.string "svc-λ"))).1

/-! # Theorems -/

/-! ## Properties of `generateToken` -/


theorem base64urlChar_mem (i : Nat) : base64urlChar i ∈ base64urlAlphabet := by
  have h : ∀ j : Fin 64, base64urlAlphabet.getD j.val 'A' ∈ base64urlAlphabet := by decide
  exact h ⟨i % 64, Nat.mod_lt _ (by decide)⟩

theorem base64url_mem : ∀ (bs : List Nat) (ch : Char), ch ∈ base64url bs → ch ∈ base64urlAlphabet
  | [], ch, h => by simp [base64url] at h
  | [a], ch, h => by
      simp only [base64url, List.mem_cons, List.mem_singleton, List.not_mem_nil, or_false] at h
      rcases h with h | h <;> subst h <;> exact base64urlChar_mem _
  | [a, b], ch, h => by
      simp only [base64url, List.mem_cons, List.mem_singleton, List.not_mem_nil, or_false] at h
      rcases h with h | h | h <;> subst h <;> exact base64urlChar_mem _
  | a :: b :: c :: rest, ch, h => by
      simp only [base64url, List.mem_cons] at h
      rcases h with h | h | h | h | h
      · subst h; exact base64urlChar_mem _
      · subst h; exact base64urlChar_mem _
      · subst h; exact base64urlChar_mem _
      · subst h; exact base64urlChar_mem _
      · exact base64url_mem rest ch h

theorem base64url_length_of_triples :
    ∀ (k : Nat) (bs : List Nat), bs.length = 3 * k → (base64url bs).length = 4 * k
  | 0, bs, h => by
      have : bs = [] := List.length_eq_zero.mp (by simpa using h)
      subst this; rfl
  | k + 1, bs, h => by
      match bs, h with
      | a :: b :: c :: rest, h =>
        have hr : rest.length = 3 * k := by simp at h; omega
        simp [base64url, base64url_length_of_triples k rest hr]; omega

theorem stripPadding_of_no_pad (s : List Char) (h : ∀ ch ∈ s, ch ≠ '=') :
    stripPadding s = s := by
  unfold stripPadding
  have : s.reverse.dropWhile (fun c => c == '=') = s.reverse := by
    cases hs : s.reverse with
    | nil => rfl
    | cons x xs =>
      have hx : x ∈ s := by
        have : x ∈ s.reverse := by rw [hs]; exact List.mem_cons_self _ _
        exact List.mem_reverse.mp this
      have : (x == '=') = false := by simpa using h x hx
      simp [List.dropWhile, this]
  rw [this, List.reverse_reverse]

theorem pad_not_mem_alphabet : '=' ∉ base64urlAlphabet := by decide

theorem space_not_mem_alphabet : ' ' ∉ base64urlAlphabet := by decide

theorem generateToken_eq (entropy : Nat → Nat) :
    generateToken entropy = tokenPrefix ++ String.mk (tokenBody entropy) := rfl

theorem tokenBody_eq (entropy : Nat → Nat) :
    tokenBody entropy = base64url (randomBytes entropy 36) := by
  have hlen : (base64url (randomBytes entropy 36)).length = 4 * 12 :=
    base64url_length_of_triples 12 _ (by simp [randomBytes])
  have hstrip : stripPadding (base64url (randomBytes entropy 36))
      = base64url (randomBytes entropy 36) :=
    stripPadding_of_no_pad _ (fun ch hch heq =>
      pad_not_mem_alphabet (heq ▸ base64url_mem _ _ hch))
  show (stripPadding (base64url (randomBytes entropy 36))).take 48 = _
  rw [hstrip]
  exact List.take_of_length_le (by omega)

theorem tokenBody_length (entropy : Nat → Nat) : (tokenBody entropy).length = 48 := by
  rw [tokenBody_eq]
  exact base64url_length_of_triples 12 _ (by simp [randomBytes])

theorem tokenBody_mem (entropy : Nat → Nat) (ch : Char) (h : ch ∈ tokenBody entropy) :
    ch ∈ base64urlAlphabet := by
  rw [tokenBody_eq] at h
  exact base64url_mem _ _ h

/-! ## JavaScript strings -/

theorem toList_append (a b : String) : (a ++ b).toList = a.toList ++ b.toList := by
  simp [String.toList]

theorem string_eq_of_toList {a b : String} (h : a.toList = b.toList) : a = b := by
  cases a; cases b; simp_all [String.toList]

theorem startsWith_append (pre x : String) : startsWith (pre ++ x) pre = true := by
  simp [startsWith, toList_append]

theorem eq_append_of_startsWith {s pre : String} (h : startsWith s pre = true) :
    s = pre ++ String.mk (s.toList.drop pre.toList.length) := by
  apply string_eq_of_toList
  rw [toList_append]
  have hp : pre.toList <+: s.toList := List.isPrefixOf_iff_prefix.mp h
  obtain ⟨t, ht⟩ := hp
  rw [← ht]
  simp [String.toList]

theorem splitChars_head (sep : Char) (l : List Char) :
    (splitChars sep l).head? = some (l.takeWhile (fun c => decide (c ≠ sep))) := by
  induction l with
  | nil => rfl
  | cons c cs ih =>
    unfold splitChars
    by_cases hc : c = sep
    · simp [hc]
    · simp only [hc, if_false]
      cases hs : splitChars sep cs with
      | nil => rw [hs] at ih; simp at ih
      | cons w ws =>
        rw [hs] at ih
        simp only [List.head?_cons, Option.some.injEq] at ih
        simp [List.takeWhile, hc, ih]

theorem splitChars_word (sep : Char) (w rest : List Char) (hw : ∀ c ∈ w, c ≠ sep) :
    splitChars sep (w ++ sep :: rest) = w :: splitChars sep rest := by
  induction w with
  | nil => simp [splitChars]
  | cons c cs ih =>
    have hc : c ≠ sep := hw c (List.mem_cons_self _ _)
    have := ih (fun d hd => hw d (List.mem_cons_of_mem _ hd))
    simp [splitChars, hc, this]

theorem providedToken_bearer (x : String) :
    providedToken ("Bearer " ++ x)
      = some (String.mk (x.toList.takeWhile (fun c => decide (c ≠ ' ')))) := by
  unfold providedToken splitSpace
  rw [toList_append]
  have h : "Bearer ".toList = "Bearer".toList ++ ' ' :: [] := by decide
  rw [h, List.append_assoc, List.singleton_append,
    splitChars_word ' ' "Bearer".toList x.toList (by decide)]
  have := splitChars_head ' ' x.toList
  cases hs : splitChars ' ' x.toList with
  | nil => rw [hs] at this; simp at this
  | cons w ws =>
    rw [hs] at this
    simp only [List.head?_cons, Option.some.injEq] at this
    simp [this]

theorem takeWhile_eq_self {α : Type} (p : α → Bool) (l : List α) (h : ∀ a ∈ l, p a = true) :
    l.takeWhile p = l := by
  induction l with
  | nil => rfl
  | cons a as ih =>
    simp [List.takeWhile, h a (List.mem_cons_self _ _),
      ih (fun b hb => h b (List.mem_cons_of_mem _ hb))]

theorem takeWhile_append_stop {α : Type} (p : α → Bool) (l rest : List α) (a : α)
    (h : ∀ b ∈ l, p b = true) (ha : p a = false) :
    (l ++ a :: rest).takeWhile p = l := by
  induction l with
  | nil => simp [List.takeWhile, ha]
  | cons b bs ih =>
    simp [List.takeWhile, h b (List.mem_cons_self _ _),
      ih (fun c hc => h c (List.mem_cons_of_mem _ hc))]

theorem generateToken_toList (entropy : Nat → Nat) :
    (generateToken entropy).toList = tokenPrefix.toList ++ tokenBody entropy := by
  rw [generateToken_eq, toList_append]
  rfl

theorem generateToken_no_space (entropy : Nat → Nat) :
    ∀ c ∈ (generateToken entropy).toList, c ≠ ' ' := by
  intro c hc
  rw [generateToken_toList, List.mem_append] at hc
  rcases hc with hc | hc
  · revert c; decide
  · intro h
    exact space_not_mem_alphabet (h ▸ tokenBody_mem entropy c hc)

theorem generateToken_ne_empty (entropy : Nat → Nat) : generateToken entropy ≠ "" := by
  intro h
  have := congrArg String.toList h
  rw [generateToken_toList] at this
  simp [tokenPrefix] at this

theorem providedToken_of_token (entropy : Nat → Nat) :
    providedToken ("Bearer " ++ generateToken entropy) = some (generateToken entropy) := by
  rw [providedToken_bearer, takeWhile_eq_self]
  · rfl
  · intro a ha
    simpa using generateToken_no_space entropy a ha

theorem providedToken_of_token_rest (entropy : Nat → Nat) (rest : String) :
    providedToken ("Bearer " ++ generateToken entropy ++ " " ++ rest)
      = some (generateToken entropy) := by
  have h : "Bearer " ++ generateToken entropy ++ " " ++ rest
      = "Bearer " ++ (generateToken entropy ++ " " ++ rest) := by
    simp [String.append_assoc]
  rw [h, providedToken_bearer]
  have h2 : (generateToken entropy ++ " " ++ rest).toList
      = (generateToken entropy).toList ++ ' ' :: rest.toList := by
    simp [toList_append]
  rw [h2, takeWhile_append_stop]
  · rfl
  · intro a ha
    simpa using generateToken_no_space entropy a ha
  · simp

/-! ## Plain objects -/

namespace JsObject

theorem hasOwn_eq_false_iff (o : JsObject) (k : String) :
    o.hasOwn k = false ↔ ∀ p ∈ o, p.1 ≠ k := by
  simp [hasOwn]

theorem hasOwn_eq_true_iff (o : JsObject) (k : String) :
    o.hasOwn k = true ↔ ∃ p ∈ o, p.1 = k := by
  simp [hasOwn]

theorem mem_insertIndexed (i : Nat) (k : String) (v : JsValue) (o : JsObject)
    (p : String × JsValue) : p ∈ insertIndexed i k v o ↔ p = (k, v) ∨ p ∈ o := by
  induction o with
  | nil => simp [insertIndexed]
  | cons q rest ih =>
    unfold insertIndexed
    cases arrayIndex? q.1 with
    | none => simp
    | some j =>
      by_cases hij : i < j
      · simp [hij]
      · simp only [hij, if_false, List.mem_cons, ih]
        tauto

theorem mem_define_of_not_own (o : JsObject) (k : String) (v : JsValue)
    (h : o.hasOwn k = false) (p : String × JsValue) :
    p ∈ o.define k v ↔ p = (k, v) ∨ p ∈ o := by
  unfold define
  simp only [h, Bool.false_eq_true, if_false]
  cases arrayIndex? k with
  | none => simp; tauto
  | some i => simp [mem_insertIndexed]

theorem mem_define_of_own (o : JsObject) (k : String) (v : JsValue)
    (h : o.hasOwn k = true) (p : String × JsValue) :
    p ∈ o.define k v ↔ p = (k, v) ∨ (p ∈ o ∧ p.1 ≠ k) := by
  unfold define
  simp only [h, if_true, List.mem_map]
  constructor
  · rintro ⟨q, hq, rfl⟩
    by_cases hk : q.1 = k
    · left; simp [hk]
    · right; simp [hk, hq]
  · rintro (rfl | ⟨hp, hk⟩)
    · obtain ⟨q, hq, hqk⟩ := (hasOwn_eq_true_iff o k).mp h
      exact ⟨q, hq, by simp [hqk]⟩
    · exact ⟨p, hp, by simp [hk]⟩

theorem mem_define (o : JsObject) (k : String) (v : JsValue) (p : String × JsValue)
    (h : p ∈ o.define k v) : p = (k, v) ∨ p ∈ o := by
  cases ho : o.hasOwn k with
  | false => exact (mem_define_of_not_own o k v ho p).mp h
  | true =>
    rcases (mem_define_of_own o k v ho p).mp h with h | h
    · exact Or.inl h
    · exact Or.inr h.1

theorem mem_define_self (o : JsObject) (k : String) (v : JsValue) : (k, v) ∈ o.define k v := by
  cases ho : o.hasOwn k with
  | false => exact (mem_define_of_not_own o k v ho _).mpr (Or.inl rfl)
  | true => exact (mem_define_of_own o k v ho _).mpr (Or.inl rfl)

theorem hasOwn_define (o : JsObject) (k : String) (v : JsValue) (k' : String) :
    (o.define k v).hasOwn k' = (o.hasOwn k' || k' == k) := by
  rw [Bool.eq_iff_iff]
  simp only [Bool.or_eq_true, beq_iff_eq, hasOwn_eq_true_iff]
  constructor
  · rintro ⟨p, hp, rfl⟩
    rcases mem_define o k v p hp with h | h
    · right; rw [h]
    · left; exact ⟨p, h, rfl⟩
  · rintro (⟨p, hp, rfl⟩ | rfl)
    · cases ho : o.hasOwn k with
      | false => exact ⟨p, (mem_define_of_not_own o k v ho p).mpr (Or.inr hp), rfl⟩
      | true =>
        by_cases hk : p.1 = k
        · exact ⟨(k, v), mem_define_self o k v, hk.symm⟩
        · exact ⟨p, (mem_define_of_own o k v ho p).mpr (Or.inr ⟨hp, hk⟩), rfl⟩
    · exact ⟨(k', v), mem_define_self o k' v, rfl⟩

theorem mem_delete (o : JsObject) (k : String) (p : String × JsValue) :
    p ∈ o.delete k ↔ p ∈ o ∧ p.1 ≠ k := by
  simp [delete]

theorem hasOwn_delete (o : JsObject) (k k' : String) :
    (o.delete k).hasOwn k' = (o.hasOwn k' && !(k' == k)) := by
  rw [Bool.eq_iff_iff]
  simp only [Bool.and_eq_true, Bool.not_eq_true', beq_eq_false_iff_ne, hasOwn_eq_true_iff,
    mem_delete]
  constructor
  · rintro ⟨p, ⟨hp, hk⟩, rfl⟩
    exact ⟨⟨p, hp, rfl⟩, hk⟩
  · rintro ⟨⟨p, hp, rfl⟩, hk⟩
    exact ⟨p, ⟨hp, hk⟩, rfl⟩

theorem delete_of_not_own (o : JsObject) (k : String) (h : o.hasOwn k = false) :
    o.delete k = o := by
  rw [hasOwn_eq_false_iff] at h
  unfold delete
  rw [List.filter_eq_self]
  intro p hp
  simpa using h p hp

theorem delete_insertIndexed (i : Nat) (k : String) (v : JsValue) (o : JsObject)
    (h : o.hasOwn k = false) : (insertIndexed i k v o).delete k = o := by
  induction o with
  | nil => simp [insertIndexed, delete]
  | cons q rest ih =>
    have hq : q.1 ≠ k := (hasOwn_eq_false_iff _ _).mp h q (List.mem_cons_self _ _)
    have hrest : hasOwn rest k = false :=
      (hasOwn_eq_false_iff _ _).mpr
        (fun p hp => (hasOwn_eq_false_iff _ _).mp h p (List.mem_cons_of_mem _ hp))
    have hdel : delete (q :: rest) k = q :: rest := delete_of_not_own _ _ h
    unfold insertIndexed
    cases arrayIndex? q.1 with
    | none =>
      show delete ((k, v) :: q :: rest) k = q :: rest
      rw [← hdel]; simp [delete]
    | some j =>
      by_cases hij : i < j
      · simp only [hij, if_true]
        rw [← hdel]; simp [delete]
      · simp only [hij, if_false]
        have := ih hrest
        simp only [delete] at this ⊢
        simp [List.filter_cons, hq, this]

theorem delete_define_of_not_own (o : JsObject) (k : String) (v : JsValue)
    (h : o.hasOwn k = false) : (o.define k v).delete k = o := by
  unfold define
  simp only [h, Bool.false_eq_true, if_false]
  cases arrayIndex? k with
  | none =>
    have := delete_of_not_own o k h
    simp only [delete] at this ⊢
    simp [List.filter_append, this]
  | some i => exact delete_insertIndexed i k v o h

/-- After `define`, the only value found under the key is the one defined. -/
theorem value_of_define (o : JsObject) (k : String) (v w : JsValue)
    (h : (k, w) ∈ o.define k v) : w = v := by
  cases ho : o.hasOwn k with
  | false =>
    rcases (mem_define_of_not_own o k v ho _).mp h with h | h
    · exact (Prod.mk.inj h).2
    · exact absurd rfl ((hasOwn_eq_false_iff o k).mp ho _ h)
  | true =>
    rcases (mem_define_of_own o k v ho _).mp h with h | h
    · exact (Prod.mk.inj h).2
    · exact absurd rfl h.2

end JsObject

/-! ## The reference digest -/

theorem dropWhile_replicate_append (c d : Char) (k : Nat) (rest : List Char) (h : d ≠ c) :
    (List.replicate k c ++ d :: rest).dropWhile (fun a => a == c) = d :: rest := by
  induction k with
  | zero =>
    have : (d == c) = false := by simpa using h
    simp [List.dropWhile, this]
  | succ k ih => simp [List.replicate_succ, List.dropWhile, ih]

theorem refCompare_refHash (t data : String) (rounds salt : Nat) (enc : String)
    (h : refHash data rounds salt = some enc) :
    refCompare t (.string enc) = some (decide (t = data)) := by
  simp only [refHash, Option.some.injEq] at h
  subst h
  have hdrop : ("$2b$10$".toList ++ (List.replicate salt '.' ++ '$' :: data.toList)).drop 7
      = List.replicate salt '.' ++ '$' :: data.toList := by
    rw [List.drop_append_of_le_length (by decide)]
    rfl
  have htake : ("$2b$10$".toList ++ (List.replicate salt '.' ++ '$' :: data.toList)).take 7
      = "$2b$10$".toList := by
    rw [List.take_append_of_le_length (by decide)]
    rfl
  simp only [refCompare, String.toList, hdrop, htake,
    dropWhile_replicate_append '.' '$' salt data.data (by decide)]
  by_cases ht : t = data
  · simp [ht]
  · have : ¬ data.data = t.data := fun hd => ht (string_eq_of_toList hd.symm)
    simp [ht, this]

theorem refHash_format (data : String) (rounds salt : Nat) (enc : String)
    (h : refHash data rounds salt = some enc) : startsWith enc "$2" = true := by
  simp only [refHash, Option.some.injEq] at h
  subst h
  rfl

theorem refCompare_sample (t : String) :
    refCompare t (.string "$2b$10$$sk-proj-AAAAAAAAAAAAAAAAAAAAAAAAAAAAAAAAAAAAAAAAAAAAAAAA")
      = some (decide (t = generateToken sampleEnv.entropy)) :=
  refCompare_refHash t (generateToken sampleEnv.entropy) saltRounds 0 _ (by decide)

theorem refCompare_other (t : String) :
    refCompare t (.string "$2b$10$.$sk-proj-AQEBAQEBAQEBAQEBAQEBAQEBAQEBAQEBAQEBAQEBAQEBAQEB")
      = some (decide (t = generateToken otherEnv.entropy)) :=
  refCompare_refHash t (generateToken otherEnv.entropy) saltRounds 1 _ (by decide)

theorem bearer_wrong_ne (rest : String) :
    some "Bearer wrong" ≠ some ("Bearer " ++ generateToken sampleEnv.entropy ++ " " ++ rest) := by
  intro h
  have h2 := congrArg (fun o : Option String => o.map (fun s => s.toList.take 8)) h
  simp only [Option.map_some', toList_append, List.append_assoc, generateToken_toList] at h2
  have h3 : ("Bearer ".toList ++ (tokenPrefix.toList ++ (tokenBody sampleEnv.entropy
      ++ (" ".toList ++ rest.toList)))).take 8 = "Bearer s".toList := by
    rw [← List.append_assoc, List.take_append_of_le_length (by decide)]
    rfl
  rw [h3] at h2
  revert h2
  decide

/-! ## The handlers, step by step -/

theorem findUser_none_of_all_false (L : Lib) (t : Option String) (l : List (String × JsValue))
    (h : ∀ p ∈ l, verifyToken L t p.2 = some false) : findUser L t l = some none := by
  induction l with
  | nil => rfl
  | cons p rest ih =>
    obtain ⟨m, w⟩ := p
    have hp : verifyToken L t w = some false := h (m, w) (List.mem_cons_self _ _)
    simp only [findUser, hp]
    exact ih (fun q hq => h q (List.mem_cons_of_mem _ hq))

theorem findUser_unique (L : Lib) (t : Option String) (n : String) (v : JsValue) :
    ∀ (l : List (String × JsValue)), (n, v) ∈ l → verifyToken L t v = some true →
      (∀ p ∈ l, p = (n, v) ∨ verifyToken L t p.2 = some false) →
      findUser L t l = some (some n)
  | [], hmem, _, _ => by simp at hmem
  | (m, w) :: rest, hmem, hv, hothers => by
    rcases hothers (m, w) (List.mem_cons_self _ _) with h | h
    · obtain ⟨rfl, rfl⟩ := Prod.mk.inj h
      simp only [findUser, hv]
    · have hne : (n, v) ≠ (m, w) := by
        intro heq
        obtain ⟨rfl, rfl⟩ := Prod.mk.inj heq
        simp only at h
        rw [hv] at h
        simp at h
      have hmem' : (n, v) ∈ rest := by
        rcases List.mem_cons.mp hmem with h' | h'
        · exact absurd h' hne
        · exact h'
      simp only at h
      simp only [findUser, h]
      exact findUser_unique L t n v rest hmem' hv
        (fun q hq => hothers q (List.mem_cons_of_mem _ hq))

theorem verifyToken_string (L : Lib) (t digest : String) (ht : t ≠ "") (hd : digest ≠ "") :
    verifyToken L (some t) (.string digest) = L.bcryptCompare t (.string digest) := by
  simp [verifyToken, JsValue.truthy, ht, hd]

theorem getAuth_bearer (L : Lib) (st : State) (x : String) :
    getAuth L st (some ("Bearer " ++ x)) =
      match findUser L (providedToken ("Bearer " ++ x)) st.validTokens with
      | none => .threw
      | some authenticatedUser => respondAuth authenticatedUser := by
  have h1 : "Bearer " ++ x ≠ "" := by
    intro h
    have := congrArg String.toList h
    rw [toList_append] at this
    simp at this
  simp only [getAuth, h1, startsWith_append, false_or, Bool.true_eq_false, if_false]

theorem respondAuth_valid (user : String) (huser : user ≠ "")
    (hheader : validHeaderValue user = true) :
    respondAuth (some user) = .sent (.authenticated user) := by
  simp [respondAuth, huser, hheader]

theorem respondAuth_invalid (user : String) (huser : user ≠ "")
    (hheader : validHeaderValue user = false) :
    respondAuth (some user) = .threw := by
  simp [respondAuth, huser, hheader]

theorem checkAdminToken_text (cfg : Config) (authHeader : Option String) (r : Response)
    (h : checkAdminToken cfg authHeader = some r) :
    r = .text 500 "Server configuration error: Admin token not set." ∨
      r = .text 401 "Unauthorized: Invalid or missing admin token." := by
  unfold checkAdminToken at h
  split at h
  · simp at h; exact Or.inl h.symm
  · split at h
    · simp at h; exact Or.inl h.symm
    · split at h
      · simp at h; exact Or.inr h.symm
      · split at h
        · simp at h; exact Or.inr h.symm
        · simp at h

theorem postTokens_created (L : Lib) (cfg : Config) (env : Env) (st : State)
    (adminHeader : Option String) (n digest : String)
    (hadmin : checkAdminToken cfg adminHeader = none)
    (hvalid : n ≠ "" ∧ trim n ≠ "")
    (hshadow : st.validTokens.hasOwn "hasOwnProperty" = false)
    (hfresh : st.validTokens.hasOwn n = false)
    (hhash : hashToken L env (generateToken env.entropy) = some digest) :
    postTokens L cfg env st adminHeader (some (.string n)) =
      (⟨st.validTokens.assignString n digest,
          (saveTokens L env (st.validTokens.assignString n digest) st.disk).1⟩,
        .sent (.created n (generateToken env.entropy))) := by
  simp [postTokens, postTokensBegin, postTokensResume, hadmin, hvalid.1, hvalid.2,
    JsObject.callHasOwnProperty, hshadow, hfresh, hhash]

theorem postTokens_conflict (L : Lib) (cfg : Config) (env : Env) (st : State)
    (adminHeader : Option String) (n : String)
    (hadmin : checkAdminToken cfg adminHeader = none)
    (hvalid : n ≠ "" ∧ trim n ≠ "")
    (hshadow : st.validTokens.hasOwn "hasOwnProperty" = false)
    (hown : st.validTokens.hasOwn n = true) :
    postTokens L cfg env st adminHeader (some (.string n)) =
      (st, .sent (.text 409 ("Conflict: A token with the name '" ++ n ++ "' already exists."))) := by
  simp [postTokens, postTokensBegin, hadmin, hvalid.1, hvalid.2,
    JsObject.callHasOwnProperty, hshadow, hown]

theorem deleteToken_missing (L : Lib) (cfg : Config) (env : Env) (st : State)
    (adminHeader : Option String) (n : String)
    (hadmin : checkAdminToken cfg adminHeader = none)
    (hshadow : st.validTokens.hasOwn "hasOwnProperty" = false)
    (hfresh : st.validTokens.hasOwn n = false) :
    deleteToken L cfg env st adminHeader n =
      (st, .sent (.text 404 ("Not Found: Token with name '" ++ n ++ "' does not exist."))) := by
  simp [deleteToken, hadmin, JsObject.callHasOwnProperty, hshadow, hfresh]

theorem deleteToken_present (L : Lib) (cfg : Config) (env : Env) (st : State)
    (adminHeader : Option String) (n : String)
    (hadmin : checkAdminToken cfg adminHeader = none)
    (hshadow : st.validTokens.hasOwn "hasOwnProperty" = false)
    (hown : st.validTokens.hasOwn n = true) :
    deleteToken L cfg env st adminHeader n =
      (⟨st.validTokens.delete n, (saveTokens L env (st.validTokens.delete n) st.disk).1⟩,
        .sent (.deleted n)) := by
  simp [deleteToken, hadmin, JsObject.callHasOwnProperty, hshadow, hown]

theorem assignString_of_new (o : JsObject) (n digest : String)
    (hfresh : o.hasOwn n = false) (hproto : n ≠ "__proto__") :
    o.assignString n digest = o.define n (.string digest) := by
  simp [JsObject.assignString, hfresh, hproto]

theorem saveTokens_ok (L : Lib) (env : Env) (o : JsObject) (disk : FileSystem)
    (hdir : disk.dirExists = true ∨ env.mkdirFails = false) (hwrite : env.writeFails = false) :
    saveTokens L env o disk = (⟨true, some (L.jsonStringify o)⟩, true) := by
  unfold saveTokens
  have hg : ¬ (disk.dirExists = false ∧ env.mkdirFails = true) := by
    rintro ⟨h1, h2⟩
    rcases hdir with h | h
    · rw [h1] at h; exact Bool.false_ne_true h
    · rw [h2] at h; exact Bool.false_ne_true h.symm
  simp [hg, hwrite]

/-! ## Create, Identify, Revoke -/

theorem postTokens_created_inv (L : Lib) (cfg : Config) (env : Env) (st st1 : State)
    (authHeader : Option String) (name : Option JsValue) (n c : String)
    (h : postTokens L cfg env st authHeader name = (st1, .sent (.created n c))) :
    name = some (.string n) ∧ c = generateToken env.entropy ∧
      checkAdminToken cfg authHeader = none ∧ (n ≠ "" ∧ trim n ≠ "") ∧
      st.validTokens.hasOwn "hasOwnProperty" = false ∧ st.validTokens.hasOwn n = false ∧
      ∃ digest, hashToken L env c = some digest ∧
        st1 = ⟨st.validTokens.assignString n digest,
          (saveTokens L env (st.validTokens.assignString n digest) st.disk).1⟩ := by
  unfold postTokens postTokensBegin at h
  cases hadm : checkAdminToken cfg authHeader with
  | some r =>
    simp only [hadm, Prod.mk.injEq, Outcome.sent.injEq] at h
    rcases checkAdminToken_text cfg authHeader r hadm with hr | hr <;> rw [hr] at h <;>
      simp at h
  | none =>
    simp only [hadm] at h
    match name, h with
    | none, h => simp at h
    | some .null, h => simp at h
    | some (.bool _), h => simp at h
    | some (.number _), h => simp at h
    | some (.array _), h => simp at h
    | some (.object _), h => simp at h
    | some (.string m), h =>
      by_cases hv : m = "" ∨ trim m = ""
      · simp [hv] at h
      · simp only [hv, if_false] at h
        unfold JsObject.callHasOwnProperty at h
        cases hsh : st.validTokens.hasOwn "hasOwnProperty" with
        | true => simp [hsh] at h
        | false =>
          simp only [hsh, Bool.false_eq_true, if_false] at h
          cases hown : st.validTokens.hasOwn m with
          | true => simp [hown] at h
          | false =>
            simp only [hown, postTokensResume] at h
            cases hh : hashToken L env (generateToken env.entropy) with
            | none => simp [hh] at h
            | some digest =>
              simp only [hh, Prod.mk.injEq, Outcome.sent.injEq, Response.created.injEq] at h
              obtain ⟨hst, rfl, rfl⟩ := h
              push_neg at hv
              exact ⟨rfl, rfl, rfl, hv, rfl, hown, digest, hh, hst.symm⟩

/-- C1, as amended. For every store state whose object has no own property
named `hasOwnProperty`, and every valid name `n` (non-empty after trimming)
that is not in the store, is neither `__proto__` nor `hasOwnProperty` and can
stand as a header value: when hashing succeeds, the new digest verifies the
new credential and no value already in the store verifies it, Create(n)
answers 201 with the credential `c`, a following Identify(c) answers 200 with
identity `n`, and a second Create(n) is refused with 409. -/
theorem create_then_identify (L : Lib) (cfg : Config) (env env2 : Env) (st : State)
    (authHeader : Option String) (n digest : String)
    (hadmin : checkAdminToken cfg authHeader = none)
    (hvalid : n ≠ "" ∧ trim n ≠ "")
    (hfresh : st.validTokens.hasOwn n = false)
    (hshadow : st.validTokens.hasOwn "hasOwnProperty" = false)
    (hproto : n ≠ "__proto__") (hname : n ≠ "hasOwnProperty")
    (hheader : validHeaderValue n = true)
    (hhash : hashToken L env (generateToken env.entropy) = some digest)
    (hdigest : digest ≠ "" ∧
      L.bcryptCompare (generateToken env.entropy) (.string digest) = some true)
    (hnew : ∀ p ∈ st.validTokens,
      verifyToken L (some (generateToken env.entropy)) p.2 = some false) :
    (postTokens L cfg env st authHeader (some (.string n))).2
        = .sent (.created n (generateToken env.entropy)) ∧
      getAuth L (postTokens L cfg env st authHeader (some (.string n))).1
          (some ("Bearer " ++ generateToken env.entropy)) = .sent (.authenticated n) ∧
      (postTokens L cfg env2 (postTokens L cfg env st authHeader (some (.string n))).1
          authHeader (some (.string n))).2.status? = some 409 := by
  rw [postTokens_created L cfg env st authHeader n digest hadmin hvalid hshadow hfresh hhash,
    assignString_of_new _ n digest hfresh hproto]
  refine ⟨rfl, ?_, ?_⟩
  · rw [getAuth_bearer, providedToken_of_token]
    have hv : verifyToken L (some (generateToken env.entropy)) (.string digest) = some true := by
      rw [verifyToken_string L _ _ (generateToken_ne_empty _) hdigest.1]
      exact hdigest.2
    have hfind := findUser_unique L (some (generateToken env.entropy)) n (.string digest)
      (st.validTokens.define n (.string digest)) (JsObject.mem_define_self _ _ _) hv
      (fun p hp => by
        rcases (JsObject.mem_define_of_not_own _ _ _ hfresh p).mp hp with h | h
        · exact Or.inl h
        · exact Or.inr (hnew p h))
    rw [hfind]
    exact respondAuth_valid n hvalid.1 hheader
  · rw [postTokens_conflict L cfg env2 _ authHeader n hadmin hvalid]
    · rfl
    · simp only [JsObject.hasOwn_define, hshadow, Bool.false_or, beq_eq_false_iff_ne, ne_eq]
      exact fun h => hname h.symm
    · simp [JsObject.hasOwn_define]

/-- A concrete instance of `create_then_identify`: `svc-a` is issued a
credential on the empty store of the reference library. -/
theorem create_then_identify_witness :
    (postTokens refLib sampleConfig sampleEnv emptyState adminHeader (some (.string "svc-a"))).2
        = .sent (.created "svc-a" (generateToken sampleEnv.entropy)) ∧
      getAuth refLib
          (postTokens refLib sampleConfig sampleEnv emptyState adminHeader
            (some (.string "svc-a"))).1
          (some ("Bearer " ++ generateToken sampleEnv.entropy)) = .sent (.authenticated "svc-a") ∧
      (postTokens refLib sampleConfig otherEnv
          (postTokens refLib sampleConfig sampleEnv emptyState adminHeader
            (some (.string "svc-a"))).1
          adminHeader (some (.string "svc-a"))).2.status? = some 409 :=
  create_then_identify refLib sampleConfig sampleEnv otherEnv emptyState adminHeader "svc-a"
    "$2b$10$$sk-proj-AAAAAAAAAAAAAAAAAAAAAAAAAAAAAAAAAAAAAAAAAAAAAAAA"
    (by decide) (by decide) (by decide) (by decide) (by decide) (by decide) (by decide)
    (by decide) (by decide) (by simp [emptyState])

/-- C1, counterexample. The entropy source yields the same bytes for two
Creates: `svc-a` is issued a credential on the empty store, then `svc-b`, a
valid name not in the store, is issued the same credential with 201, and
Identify of that credential answers 200 with identity `svc-a`, not `svc-b`. -/
theorem create_then_identify_collision :
    issuedState.validTokens.hasOwn "svc-b" = false ∧
      (postTokens refLib sampleConfig sampleEnv issuedState adminHeader
          (some (.string "svc-b"))).2 = .sent (.created "svc-b" sampleToken) ∧
      getAuth refLib
          (postTokens refLib sampleConfig sampleEnv issuedState adminHeader
            (some (.string "svc-b"))).1
          (some ("Bearer " ++ sampleToken)) = .sent (.authenticated "svc-a") := by
  decide

/-- C2, as amended. For every store state whose object has no own property
named `hasOwnProperty` and every name `n` not present in the store, Revoke(n)
answers 404 and leaves the state unchanged; and when `n` is not
`hasOwnProperty`, Create(n) returned the credential `c` and no value stored
before verifies `c`, then after Revoke(n) Identify(c) answers 401. -/
theorem revoke_contract (L : Lib) (cfg : Config) (env env2 : Env) (st : State)
    (authHeader : Option String) (n : String)
    (hadmin : checkAdminToken cfg authHeader = none)
    (hshadow : st.validTokens.hasOwn "hasOwnProperty" = false)
    (hfresh : st.validTokens.hasOwn n = false) :
    deleteToken L cfg env st authHeader n
        = (st, .sent (.text 404 ("Not Found: Token with name '" ++ n ++ "' does not exist."))) ∧
      ∀ (st1 st2 : State) (c : String) (o : Outcome),
        n ≠ "hasOwnProperty" →
        postTokens L cfg env st authHeader (some (.string n)) = (st1, .sent (.created n c)) →
        (∀ p ∈ st.validTokens, verifyToken L (some c) p.2 = some false) →
        deleteToken L cfg env2 st1 authHeader n = (st2, o) →
        (getAuth L st2 (some ("Bearer " ++ c))).status? = some 401 := by
  refine ⟨deleteToken_missing L cfg env st authHeader n hadmin hshadow hfresh, ?_⟩
  intro st1 st2 c o hname hcreate hnew hdelete
  obtain ⟨_, hc, _, _, _, _, digest, _, hst1⟩ :=
    postTokens_created_inv L cfg env st st1 authHeader _ n c hcreate
  have hstore : st2.validTokens = st.validTokens := by
    by_cases hproto : n = "__proto__"
    · have h1 : st1.validTokens = st.validTokens := by
        rw [hst1]
        show st.validTokens.assignString n digest = _
        unfold JsObject.assignString
        rw [hfresh, if_neg (by simp), if_pos hproto]
      have hshadow1 : st1.validTokens.hasOwn "hasOwnProperty" = false := by rw [h1]; exact hshadow
      have hfresh1 : st1.validTokens.hasOwn n = false := by rw [h1]; exact hfresh
      rw [deleteToken_missing L cfg env2 st1 authHeader n hadmin hshadow1 hfresh1] at hdelete
      rw [← (Prod.mk.inj hdelete).1, h1]
    · have h1 : st1.validTokens = st.validTokens.define n (.string digest) := by
        rw [hst1]; exact assignString_of_new _ n digest hfresh hproto
      have hshadow1 : st1.validTokens.hasOwn "hasOwnProperty" = false := by
        rw [h1, JsObject.hasOwn_define, hshadow, Bool.false_or, beq_eq_false_iff_ne]
        exact fun h => hname h.symm
      have hown1 : st1.validTokens.hasOwn n = true := by
        rw [h1]; simp [JsObject.hasOwn_define]
      rw [deleteToken_present L cfg env2 st1 authHeader n hadmin hshadow1 hown1] at hdelete
      rw [← (Prod.mk.inj hdelete).1]
      show st1.validTokens.delete n = _
      rw [h1, JsObject.delete_define_of_not_own _ _ _ hfresh]
  rw [hc] at hnew ⊢
  rw [getAuth_bearer, providedToken_of_token, hstore,
    findUser_none_of_all_false L _ _ hnew]
  rfl

/-- A concrete instance of `revoke_contract`: on the empty store of the
reference library Revoke(svc-a) answers 404, and after Create(svc-a) and
Revoke(svc-a) the credential issued is refused with 401. -/
theorem revoke_contract_witness :
    deleteToken refLib sampleConfig sampleEnv emptyState adminHeader "svc-a"
        = (emptyState,
          .sent (.text 404 ("Not Found: Token with name '" ++ "svc-a" ++ "' does not exist."))) ∧
      (getAuth refLib (deleteToken refLib sampleConfig sampleEnv issuedState adminHeader "svc-a").1
        (some ("Bearer " ++ sampleToken))).status? = some 401 :=
  have h := revoke_contract refLib sampleConfig sampleEnv sampleEnv emptyState adminHeader
    "svc-a" (by decide) (by decide) (by decide)
  ⟨h.1, h.2 issuedState _ sampleToken _ (by decide) (by rfl) (by simp [emptyState]) rfl⟩

/-- C2, counterexample. The entropy source yields the same bytes for two
Creates: `svc-a` holds a credential, Create(svc-b) returns the same credential
with 201, Revoke(svc-b) answers 200, and Identify of the credential still
answers 200 (as `svc-a`) instead of 401. -/
theorem revoke_then_identify_collision :
    (postTokens refLib sampleConfig sampleEnv issuedState adminHeader
        (some (.string "svc-b"))).2 = .sent (.created "svc-b" sampleToken) ∧
      (deleteToken refLib sampleConfig sampleEnv
        (postTokens refLib sampleConfig sampleEnv issuedState adminHeader
          (some (.string "svc-b"))).1 adminHeader "svc-b").2 = .sent (.deleted "svc-b") ∧
      getAuth refLib
        (deleteToken refLib sampleConfig sampleEnv
          (postTokens refLib sampleConfig sampleEnv issuedState adminHeader
            (some (.string "svc-b"))).1 adminHeader "svc-b").1
        (some ("Bearer " ++ sampleToken)) = .sent (.authenticated "svc-a") := by
  decide

/-! ## The admin gate and the identity check -/

/-- C3. When no administrative secret is configured (`ADMIN_TOKEN` unset or
empty), every management request (POST /tokens, GET /tokens,
DELETE /tokens/:name), whatever its Authorization header, body or name, is
answered with the configuration error (500) and leaves the state unchanged;
and GET /auth answers every request as it would under any other
configuration. -/
theorem admin_unset_locks_management (L : Lib) (cfg : Config) (env : Env) (st : State)
    (hunset : cfg.adminToken = none ∨ cfg.adminToken = some "") :
    (∀ req : Request, req.isManagement = true →
        handle L cfg env st req
          = (st, .sent (.text 500 "Server configuration error: Admin token not set."))) ∧
      ∀ (cfg2 : Config) (authHeader : Option String),
        handle L cfg env st (.getAuth authHeader) = handle L cfg2 env st (.getAuth authHeader) := by
  have hgate : ∀ h, checkAdminToken cfg h
      = some (.text 500 "Server configuration error: Admin token not set.") := by
    intro h
    rcases hunset with hu | hu <;> simp [checkAdminToken, hu]
  refine ⟨?_, fun _ _ => rfl⟩
  intro req hreq
  cases req with
  | getAuth h => simp [Request.isManagement] at hreq
  | postTokens h name => simp [handle, postTokens, postTokensBegin, hgate]
  | getTokens h => simp [handle, getTokens, hgate]
  | deleteToken h name => simp [handle, deleteToken, hgate]

/-- A concrete instance of `admin_unset_locks_management`: without
`ADMIN_TOKEN`, a Create that presents a bearer header is answered 500 and the
issued credential of `svc-a` is still identified. -/
theorem admin_unset_locks_management_witness :
    handle refLib lockedConfig sampleEnv issuedState
        (.postTokens (some "Bearer adm") (some (.string "svc-b")))
        = (issuedState, .sent (.text 500 "Server configuration error: Admin token not set.")) ∧
      handle refLib lockedConfig sampleEnv issuedState (.getAuth (some ("Bearer " ++ sampleToken)))
        = handle refLib sampleConfig sampleEnv issuedState
            (.getAuth (some ("Bearer " ++ sampleToken))) :=
  have h := admin_unset_locks_management refLib lockedConfig sampleEnv issuedState (Or.inl rfl)
  ⟨h.1 _ rfl, h.2 sampleConfig _⟩

theorem getAuth_status_of_not_bearer (L : Lib) (st : State) (authHeader : Option String)
    (h : ∀ x, authHeader ≠ some ("Bearer " ++ x)) :
    (getAuth L st authHeader).status? = some 401 := by
  cases authHeader with
  | none => rfl
  | some hd =>
    unfold getAuth
    by_cases hs : hd = "" ∨ startsWith hd "Bearer " = false
    · simp only [hs, if_true]; rfl
    · push_neg at hs
      have := eq_append_of_startsWith (by simpa using hs.2 : startsWith hd "Bearer " = true)
      exact absurd (congrArg some this) (h _)

theorem eq_of_takeWhile_eq (x c : List Char)
    (h : x.takeWhile (fun a => decide (a ≠ ' ')) = c) :
    x = c ∨ ∃ rest, x = c ++ ' ' :: rest := by
  have hsplit := List.takeWhile_append_dropWhile (fun a => decide (a ≠ ' ')) x
  rw [h] at hsplit
  cases hd : x.dropWhile (fun a => decide (a ≠ ' ')) with
  | nil => left; rw [hd] at hsplit; simpa using hsplit.symm
  | cons a rest =>
    right
    have ha : a = ' ' := by
      have := List.head_dropWhile_not (fun a => decide (a ≠ ' ')) x (by rw [hd]; simp)
      simp only [hd, List.head_cons] at this
      simpa using this
    rw [hd, ha] at hsplit
    exact ⟨rest, hsplit.symm⟩

/-- C4, as amended. With a store that holds only `svc-a`, whose digest
verifies exactly the issued credential `c`, GET /auth answers 200 with identity
`svc-a` when the Authorization header is `Bearer c`, or `Bearer c` followed by
a space and any further text (only the second space-separated field is read);
for every other header value, and for a missing header, it answers 401. -/
theorem auth_single_entry (L : Lib) (st : State) (entropy : Nat → Nat) (digest : String)
    (hstore : st.validTokens = [("svc-a", .string digest)])
    (hdigest : digest ≠ "")
    (hverify : ∀ t, L.bcryptCompare t (.string digest)
      = some (decide (t = generateToken entropy))) :
    getAuth L st (some ("Bearer " ++ generateToken entropy)) = .sent (.authenticated "svc-a") ∧
      (∀ rest, getAuth L st (some ("Bearer " ++ generateToken entropy ++ " " ++ rest))
        = .sent (.authenticated "svc-a")) ∧
      ∀ authHeader : Option String,
        authHeader ≠ some ("Bearer " ++ generateToken entropy) →
        (∀ rest, authHeader ≠ some ("Bearer " ++ generateToken entropy ++ " " ++ rest)) →
        (getAuth L st authHeader).status? = some 401 := by
  have hgood : findUser L (some (generateToken entropy)) st.validTokens = some (some "svc-a") := by
    rw [hstore]
    simp [findUser, verifyToken_string L _ _ (generateToken_ne_empty _) hdigest, hverify]
  refine ⟨?_, ?_, ?_⟩
  · rw [getAuth_bearer, providedToken_of_token, hgood]
    exact respondAuth_valid "svc-a" (by decide) (by decide)
  · intro rest
    have h : "Bearer " ++ generateToken entropy ++ " " ++ rest
        = "Bearer " ++ (generateToken entropy ++ " " ++ rest) := by
      simp [String.append_assoc]
    have hp := providedToken_of_token_rest entropy rest
    rw [h] at hp ⊢
    rw [getAuth_bearer, hp, hgood]
    exact respondAuth_valid "svc-a" (by decide) (by decide)
  · intro authHeader h1 h2
    by_cases hb : ∃ x, authHeader = some ("Bearer " ++ x)
    · obtain ⟨x, rfl⟩ := hb
      rw [getAuth_bearer, providedToken_bearer, hstore]
      generalize htok : String.mk (x.toList.takeWhile (fun c => decide (c ≠ ' '))) = tok
      have hne : tok ≠ generateToken entropy := by
        intro ht
        have ht' : x.toList.takeWhile (fun c => decide (c ≠ ' '))
            = (generateToken entropy).toList := by rw [← ht, ← htok]; rfl
        rcases eq_of_takeWhile_eq _ _ ht' with hx | ⟨rest, hx⟩
        · exact h1 (by rw [string_eq_of_toList hx])
        · apply h2 (String.mk rest)
          have : x = generateToken entropy ++ " " ++ String.mk rest := by
            apply string_eq_of_toList
            rw [hx]; simp [toList_append]
          rw [this]; simp [String.append_assoc]
      have hv : verifyToken L (some tok) (.string digest) = some false := by
        by_cases he : tok = ""
        · simp [verifyToken, he]
        · rw [verifyToken_string L _ _ he hdigest, hverify]; simp [hne]
      simp only [findUser, hv]
      rfl
    · push_neg at hb
      exact getAuth_status_of_not_bearer L st authHeader hb

/-- A concrete instance of `auth_single_entry`: the store in which `svc-a`
was issued `sampleToken`. -/
theorem auth_single_entry_witness :
    getAuth refLib issuedState (some ("Bearer " ++ generateToken sampleEnv.entropy))
        = .sent (.authenticated "svc-a") ∧
      (getAuth refLib issuedState (some "Bearer wrong")).status? = some 401 ∧
      (getAuth refLib issuedState none).status? = some 401 :=
  have h := auth_single_entry refLib issuedState sampleEnv.entropy
    "$2b$10$$sk-proj-AAAAAAAAAAAAAAAAAAAAAAAAAAAAAAAAAAAAAAAAAAAAAAAA" (by rfl) (by decide)
    refCompare_sample
  ⟨h.1, h.2.2 (some "Bearer wrong") (by decide) (fun rest => bearer_wrong_ne rest),
    h.2.2 none (by simp) (by simp)⟩

/-- C4, counterexample. In the store in which `svc-a` was issued
`sampleToken`, the header `Bearer <sampleToken> x`, which is not
`Bearer <sampleToken>`, is answered 200 with identity `svc-a`. -/
theorem auth_accepts_trailing_field :
    "Bearer " ++ sampleToken ++ " x" ≠ "Bearer " ++ sampleToken ∧
      getAuth refLib issuedState (some ("Bearer " ++ sampleToken ++ " x"))
        = .sent (.authenticated "svc-a") := by
  decide

/-! ## The credential format and a failed persist -/

/-- C10, as amended. For every output of the entropy source, `generateToken`
gives `tokenPrefix` followed by exactly 48 (`tokenLength`) characters, all of
the base64url alphabet, and the token of every 201 response of POST /tokens is
the value of `generateToken` for the entropy of that request. -/
theorem generateToken_format :
    (∀ entropy : Nat → Nat, ∃ body : List Char,
        generateToken entropy = tokenPrefix ++ String.mk body ∧ body.length = 48 ∧
          ∀ ch ∈ body, ch ∈ base64urlAlphabet) ∧
      ∀ (L : Lib) (cfg : Config) (env : Env) (st st1 : State) (authHeader : Option String)
        (name : Option JsValue) (n c : String),
        postTokens L cfg env st authHeader name = (st1, .sent (.created n c)) →
        c = generateToken env.entropy :=
  ⟨fun entropy => ⟨tokenBody entropy, generateToken_eq entropy, tokenBody_length entropy,
      tokenBody_mem entropy⟩,
    fun L cfg env st st1 authHeader name n c h =>
      (postTokens_created_inv L cfg env st st1 authHeader name n c h).2.1⟩

/-- A concrete instance of `generateToken_format`: the credential in the 201
response to Create(svc-a) under `sampleEnv`. -/
theorem generateToken_format_witness :
    (postTokens refLib sampleConfig sampleEnv emptyState adminHeader (some (.string "svc-a"))).2
        = .sent (.created "svc-a" sampleToken) ∧
      sampleToken = generateToken sampleEnv.entropy :=
  ⟨by decide,
    generateToken_format.2 refLib sampleConfig sampleEnv emptyState issuedState adminHeader
      (some (.string "svc-a")) "svc-a" sampleToken (by rfl)⟩

/-- C10, counterexample. From an entropy source of zero bytes `generateToken`
gives `sk-proj-` followed by 48 characters `A`: the prefix is not followed by
exactly 44 characters. -/
theorem generateToken_not_44 :
    generateToken (fun _ => 0) = tokenPrefix ++ String.mk (List.replicate 48 'A') ∧
      ¬ ∃ body : List Char,
        generateToken (fun _ => 0) = tokenPrefix ++ String.mk body ∧ body.length = 44 := by
  refine ⟨by decide, ?_⟩
  rintro ⟨body, h, hlen⟩
  have h2 := congrArg (fun s : String => s.toList.length) h
  simp only [generateToken_toList, toList_append, List.length_append, tokenBody_length] at h2
  have h3 : (String.mk body).toList.length = 44 := hlen
  omega

/-- C6, as amended. For every Create or Revoke that passes its checks, the
caller receives the success response (201 for Create, 200 for Revoke) also
when the following Persist fails because the write raises: `saveTokens`
catches and logs the error, and the in-memory mutation stays in place. -/
theorem persist_failure_not_surfaced (L : Lib) (cfg : Config) (env : Env) (st : State)
    (authHeader : Option String) (n : String)
    (hadmin : checkAdminToken cfg authHeader = none)
    (hshadow : st.validTokens.hasOwn "hasOwnProperty" = false)
    (hfail : env.writeFails = true) :
    (∀ digest, (n ≠ "" ∧ trim n ≠ "") → st.validTokens.hasOwn n = false →
        hashToken L env (generateToken env.entropy) = some digest →
        (saveTokens L env (st.validTokens.assignString n digest) st.disk).2 = false ∧
          (postTokens L cfg env st authHeader (some (.string n))).2
            = .sent (.created n (generateToken env.entropy)) ∧
          (postTokens L cfg env st authHeader (some (.string n))).1.validTokens
            = st.validTokens.assignString n digest) ∧
      (st.validTokens.hasOwn n = true →
        (saveTokens L env (st.validTokens.delete n) st.disk).2 = false ∧
          (deleteToken L cfg env st authHeader n).2 = .sent (.deleted n) ∧
          (deleteToken L cfg env st authHeader n).1.validTokens = st.validTokens.delete n) := by
  have hsave : ∀ o, (saveTokens L env o st.disk).2 = false := by
    intro o
    unfold saveTokens
    by_cases hd : st.disk.dirExists = false ∧ env.mkdirFails = true
    · simp [hd]
    · simp [hd, hfail]
  constructor
  · intro digest hvalid hfresh hhash
    rw [postTokens_created L cfg env st authHeader n digest hadmin hvalid hshadow hfresh hhash]
    exact ⟨hsave _, rfl, rfl⟩
  · intro hown
    rw [deleteToken_present L cfg env st authHeader n hadmin hshadow hown]
    exact ⟨hsave _, rfl, rfl⟩

/-- A concrete instance of `persist_failure_not_surfaced`: Revoke(svc-a) with
a failing write is answered 200 and removes `svc-a` from memory. -/
theorem persist_failure_not_surfaced_witness :
    (deleteToken refLib sampleConfig failingEnv issuedState adminHeader "svc-a").2
        = .sent (.deleted "svc-a") ∧
      (deleteToken refLib sampleConfig failingEnv issuedState adminHeader "svc-a").1.validTokens
        = issuedState.validTokens.delete "svc-a" :=
  have h := (persist_failure_not_surfaced refLib sampleConfig failingEnv issuedState adminHeader
    "svc-a" (by decide) (by decide) rfl).2 (by decide)
  ⟨h.2.1, h.2.2⟩

/-- C6, counterexample. Create(svc-a) on the empty store while
`fs.writeFileSync` raises: the in-memory store takes `svc-a`, the persist
fails (the file still reads `{}`), and the caller receives 201, not 500. -/
theorem create_acknowledged_without_persist :
    (postTokens refLib sampleConfig failingEnv emptyState adminHeader
        (some (.string "svc-a"))).1.validTokens.keys = ["svc-a"] ∧
      (saveTokens refLib failingEnv
        (postTokens refLib sampleConfig failingEnv emptyState adminHeader
          (some (.string "svc-a"))).1.validTokens emptyState.disk).2 = false ∧
      (postTokens refLib sampleConfig failingEnv emptyState adminHeader
        (some (.string "svc-a"))).1.disk.file = some "{}" ∧
      (postTokens refLib sampleConfig failingEnv emptyState adminHeader
        (some (.string "svc-a"))).2.status? = some 201 := by
  decide

/-! ## What the store holds -/

theorem postTokens_state (L : Lib) (cfg : Config) (env : Env) (st : State)
    (authHeader : Option String) (name : Option JsValue) :
    (postTokens L cfg env st authHeader name).1 = st ∨
      ∃ n digest, hashToken L env (generateToken env.entropy) = some digest ∧
        (postTokens L cfg env st authHeader name).2
          = .sent (.created n (generateToken env.entropy)) ∧
        (postTokens L cfg env st authHeader name).1
          = ⟨st.validTokens.assignString n digest,
              (saveTokens L env (st.validTokens.assignString n digest) st.disk).1⟩ := by
  unfold postTokens postTokensBegin
  cases checkAdminToken cfg authHeader with
  | some r => exact Or.inl rfl
  | none =>
    match name with
    | none => exact Or.inl rfl
    | some .null => exact Or.inl rfl
    | some (.bool _) => exact Or.inl rfl
    | some (.number _) => exact Or.inl rfl
    | some (.array _) => exact Or.inl rfl
    | some (.object _) => exact Or.inl rfl
    | some (.string m) =>
      by_cases hv : m = "" ∨ trim m = ""
      · simp [hv]
      · simp only [hv, if_false]
        cases st.validTokens.callHasOwnProperty m with
        | none => exact Or.inl rfl
        | some b =>
          cases b with
          | true => exact Or.inl rfl
          | false =>
            simp only [postTokensResume]
            cases hh : hashToken L env (generateToken env.entropy) with
            | none => exact Or.inl rfl
            | some digest => exact Or.inr ⟨m, digest, rfl, rfl, rfl⟩

theorem deleteToken_state (L : Lib) (cfg : Config) (env : Env) (st : State)
    (authHeader : Option String) (n : String) :
    (deleteToken L cfg env st authHeader n).1 = st ∨
      ((deleteToken L cfg env st authHeader n).2 = .sent (.deleted n) ∧
        (deleteToken L cfg env st authHeader n).1
          = ⟨st.validTokens.delete n, (saveTokens L env (st.validTokens.delete n) st.disk).1⟩) := by
  unfold deleteToken
  cases checkAdminToken cfg authHeader with
  | some r => exact Or.inl rfl
  | none =>
    cases st.validTokens.callHasOwnProperty n with
    | none => exact Or.inl rfl
    | some b =>
      cases b with
      | true => exact Or.inr ⟨rfl, rfl⟩
      | false => exact Or.inl rfl

theorem mem_assignString (o : JsObject) (n digest : String) (p : String × JsValue)
    (h : p ∈ o.assignString n digest) : p = (n, .string digest) ∨ p ∈ o := by
  unfold JsObject.assignString at h
  split at h
  · exact JsObject.mem_define o n _ p h
  · split at h
    · exact Or.inr h
    · exact JsObject.mem_define o n _ p h

theorem generateToken_not_digest_format (entropy : Nat → Nat) :
    startsWith (generateToken entropy) "$2" = false := by
  unfold startsWith
  rw [generateToken_toList]
  rfl

theorem digest_invariant_step (L : Lib) (cfg : Config) (env : Env) (st : State) (req : Request)
    (h : ∀ p ∈ st.validTokens, IsDigest L p.2) :
    ∀ p ∈ (handle L cfg env st req).1.validTokens, IsDigest L p.2 := by
  cases req with
  | getAuth hd => exact h
  | getTokens hd => exact h
  | postTokens hd name =>
    show ∀ p ∈ (postTokens L cfg env st hd name).1.validTokens, _
    rcases postTokens_state L cfg env st hd name with hs | ⟨n, digest, hh, _, hs⟩
    · rw [hs]; exact h
    · rw [hs]
      intro p hp
      rcases mem_assignString _ _ _ p hp with hp | hp
      · rw [hp]
        exact ⟨generateToken env.entropy, env.salt, digest, hh, rfl⟩
      · exact h p hp
  | deleteToken hd n =>
    show ∀ p ∈ (deleteToken L cfg env st hd n).1.validTokens, _
    rcases deleteToken_state L cfg env st hd n with hs | ⟨_, hs⟩
    · rw [hs]; exact h
    · rw [hs]
      intro p hp
      exact h p ((JsObject.mem_delete _ _ _).mp hp).1

/-- C5. Provided a bcrypt digest starts with `$2`: for every successful
Create, returning the credential `c` for the name `n`, the digest `Hash(c)`
differs from `c`, the new in-memory map is the old one with the assignment
`validTokens[n] = digest`, any value it holds under `n` is that digest (and it
holds one unless `n` is `__proto__`), and the storage file, when the write
does not fail, is the serialization of that map; and every value in every
store reachable from the empty store (or from any store of digests) is a
digest and never a plaintext credential. -/
theorem stored_values_are_digests (L : Lib) (cfg : Config)
    (hformat : ∀ data rounds salt enc,
      L.bcryptHash data rounds salt = some enc → startsWith enc "$2" = true) :
    (∀ (env : Env) (st st1 : State) (authHeader : Option String) (name : Option JsValue)
        (n c : String),
        postTokens L cfg env st authHeader name = (st1, .sent (.created n c)) →
        ∃ digest, hashToken L env c = some digest ∧ digest ≠ c ∧
          st1.validTokens = st.validTokens.assignString n digest ∧
          (∀ v, (n, v) ∈ st1.validTokens → v = .string digest) ∧
          (n ≠ "__proto__" → (n, .string digest) ∈ st1.validTokens) ∧
          (env.mkdirFails = false → env.writeFails = false →
            st1.disk.file = some (L.jsonStringify st1.validTokens))) ∧
      ∀ st, Reachable L cfg st → ∀ p ∈ st.validTokens, IsDigest L p.2 ∧ ¬ IsCredential p.2 := by
  constructor
  · intro env st st1 authHeader name n c hcreate
    obtain ⟨_, hc, _, _, _, hfresh, digest, hh, hst1⟩ :=
      postTokens_created_inv L cfg env st st1 authHeader name n c hcreate
    refine ⟨digest, hh, ?_, by rw [hst1], ?_, ?_, ?_⟩
    · intro heq
      have h1 := hformat _ _ _ _ hh
      rw [heq, hc, generateToken_not_digest_format] at h1
      exact Bool.false_ne_true h1
    · intro v hv
      rw [hst1] at hv
      by_cases hproto : n = "__proto__"
      · have : st.validTokens.assignString n digest = st.validTokens := by
          unfold JsObject.assignString
          rw [hfresh, if_neg (by simp), if_pos hproto]
        rw [this] at hv
        exact absurd rfl ((JsObject.hasOwn_eq_false_iff _ _).mp hfresh _ hv)
      · rw [assignString_of_new _ n digest hfresh hproto] at hv
        exact JsObject.value_of_define _ _ _ _ hv
    · intro hproto
      rw [hst1, assignString_of_new _ n digest hfresh hproto]
      exact JsObject.mem_define_self _ _ _
    · intro hmk hwr
      rw [hst1, saveTokens_ok L env _ _ (Or.inr hmk) hwr]
  · intro st hreach
    have hinv : ∀ p ∈ st.validTokens, IsDigest L p.2 := by
      induction hreach with
      | start st0 h0 => exact h0
      | step env req _ ih => exact digest_invariant_step L cfg env _ req ih
    intro p hp
    refine ⟨hinv p hp, ?_⟩
    rintro ⟨entropy, hcred⟩
    obtain ⟨data, salt, enc, henc, hv⟩ := hinv p hp
    rw [hv] at hcred
    have h1 := hformat _ _ _ _ henc
    rw [JsValue.string.inj hcred, generateToken_not_digest_format] at h1
    exact Bool.false_ne_true h1

/-- A concrete instance of `stored_values_are_digests`: Create(svc-a) on the
empty store of the reference library stores the digest of the credential
under `svc-a`, and the value differs from the credential. -/
theorem stored_values_are_digests_witness :
    (∃ digest, hashToken refLib sampleEnv sampleToken = some digest ∧ digest ≠ sampleToken ∧
        ("svc-a", JsValue.string digest) ∈ issuedState.validTokens) ∧
      ∀ p ∈ issuedState.validTokens, IsDigest refLib p.2 ∧ ¬ IsCredential p.2 :=
  have h := stored_values_are_digests refLib sampleConfig refHash_format
  have h1 := h.1 sampleEnv emptyState issuedState adminHeader (some (.string "svc-a")) "svc-a"
    sampleToken (by rfl)
  ⟨h1.elim fun digest hd => ⟨digest, hd.1, hd.2.1, hd.2.2.2.2.1 (by decide)⟩,
    h.2 issuedState (Reachable.step sampleEnv (.postTokens adminHeader (some (.string "svc-a")))
      (Reachable.start emptyState (fun _ hp => by simp [emptyState] at hp)))⟩

/-! ## Own-key order -/

theorem canonical_nil : Canonical [] := List.Pairwise.nil

theorem canonical_delete (o : JsObject) (k : String) (h : Canonical o) :
    Canonical (o.delete k) :=
  List.Pairwise.sublist (List.filter_sublist o) h

theorem keyBefore_congr {p q p2 q2 : String × JsValue} (hp : p2.1 = p.1) (hq : q2.1 = q.1)
    (h : keyBefore p q) : keyBefore p2 q2 := by
  unfold keyBefore at *
  rw [hp, hq]
  exact h

theorem canonical_insertIndexed (i : Nat) (k : String) (v : JsValue) (hk : arrayIndex? k = some i) :
    ∀ (o : JsObject), Canonical o → o.hasOwn k = false →
      Canonical (JsObject.insertIndexed i k v o)
  | [], _, _ => by simp [JsObject.insertIndexed, Canonical]
  | q :: rest, hcan, hfresh => by
    have hq : q.1 ≠ k := (JsObject.hasOwn_eq_false_iff _ _).mp hfresh q (List.mem_cons_self _ _)
    have hrestFresh : JsObject.hasOwn rest k = false :=
      (JsObject.hasOwn_eq_false_iff _ _).mpr
        (fun p hp => (JsObject.hasOwn_eq_false_iff _ _).mp hfresh p (List.mem_cons_of_mem _ hp))
    have hcons := List.pairwise_cons.mp hcan
    unfold JsObject.insertIndexed
    cases hj : arrayIndex? q.1 with
    | none =>
      show Canonical ((k, v) :: q :: rest)
      refine List.pairwise_cons.mpr ⟨?_, hcan⟩
      intro p hp
      have hpk : p.1 ≠ k := (JsObject.hasOwn_eq_false_iff _ _).mp hfresh p hp
      refine ⟨fun h => hpk h.symm, ?_⟩
      show orderedRanks (arrayIndex? k) (arrayIndex? p.1)
      rw [hk]
      rcases List.mem_cons.mp hp with rfl | hp'
      · rw [hj]; trivial
      · have := (hcons.1 p hp').2
        rw [hj] at this
        cases hp1 : arrayIndex? p.1 with
        | none => trivial
        | some j => rw [hp1] at this; exact absurd this (by simp [orderedRanks])
    | some j =>
      by_cases hij : i < j
      · simp only [hij, if_true]
        refine List.pairwise_cons.mpr ⟨?_, hcan⟩
        intro p hp
        have hpk : p.1 ≠ k := (JsObject.hasOwn_eq_false_iff _ _).mp hfresh p hp
        refine ⟨fun h => hpk h.symm, ?_⟩
        show orderedRanks (arrayIndex? k) (arrayIndex? p.1)
        rw [hk]
        rcases List.mem_cons.mp hp with rfl | hp'
        · rw [hj]; exact Nat.le_of_lt hij
        · have := (hcons.1 p hp').2
          rw [hj] at this
          cases hp1 : arrayIndex? p.1 with
          | none => trivial
          | some j2 =>
            rw [hp1] at this
            exact Nat.le_trans (Nat.le_of_lt hij) this
      · simp only [hij, if_false]
        refine List.pairwise_cons.mpr ⟨?_, canonical_insertIndexed i k v hk rest hcons.2 hrestFresh⟩
        intro p hp
        rcases (JsObject.mem_insertIndexed i k v rest p).mp hp with rfl | hp'
        · refine ⟨hq, ?_⟩
          show orderedRanks (arrayIndex? q.1) (arrayIndex? k)
          rw [hj, hk]
          exact Nat.le_of_not_lt hij
        · exact hcons.1 p hp'

theorem canonical_define (o : JsObject) (k : String) (v : JsValue) (h : Canonical o) :
    Canonical (o.define k v) := by
  unfold JsObject.define
  cases hown : o.hasOwn k with
  | true =>
    simp only [if_true]
    unfold Canonical
    rw [List.pairwise_map]
    refine List.Pairwise.imp ?_ h
    intro p q hpq
    apply keyBefore_congr _ _ hpq
    · by_cases hp : p.1 = k <;> simp [hp]
    · by_cases hq : q.1 = k <;> simp [hq]
  | false =>
    simp only [Bool.false_eq_true, if_false]
    cases hk : arrayIndex? k with
    | some i => exact canonical_insertIndexed i k v hk o h hown
    | none =>
      show Canonical (o ++ [(k, v)])
      unfold Canonical
      rw [List.pairwise_append]
      refine ⟨h, List.pairwise_singleton _ _, ?_⟩
      intro p hp q hq
      rw [List.mem_singleton] at hq
      subst hq
      refine ⟨(JsObject.hasOwn_eq_false_iff _ _).mp hown p hp, ?_⟩
      show orderedRanks (arrayIndex? p.1) (arrayIndex? k)
      rw [hk]
      cases arrayIndex? p.1 <;> trivial

theorem canonical_assignString (o : JsObject) (n digest : String) (h : Canonical o) :
    Canonical (o.assignString n digest) := by
  unfold JsObject.assignString
  split
  · exact canonical_define o n _ h
  · split
    · exact h
    · exact canonical_define o n _ h

theorem foldl_define_canonical (props : List (String × JsValue)) :
    ∀ acc : JsObject, Canonical acc →
      Canonical (props.foldl (fun (o : JsObject) p => o.define p.1 p.2) acc) := by
  induction props with
  | nil => intro acc h; exact h
  | cons p rest ih => intro acc h; exact ih _ (canonical_define acc p.1 p.2 h)

theorem canonical_ofProps (props : List (String × JsValue)) :
    Canonical (JsObject.ofProps props) :=
  foldl_define_canonical props [] canonical_nil

theorem insertIndexed_at_end (i : Nat) (k : String) (v : JsValue) :
    ∀ acc : JsObject, (∀ a ∈ acc, ∃ j, arrayIndex? a.1 = some j ∧ j ≤ i) →
      JsObject.insertIndexed i k v acc = acc ++ [(k, v)]
  | [], _ => rfl
  | a :: rest, h => by
    obtain ⟨j, hj, hji⟩ := h a (List.mem_cons_self _ _)
    unfold JsObject.insertIndexed
    rw [hj]
    simp only [Nat.not_lt.mpr hji, if_false, List.cons_append]
    rw [insertIndexed_at_end i k v rest (fun b hb => h b (List.mem_cons_of_mem _ hb))]

theorem foldl_define_append (rest : List (String × JsValue)) :
    ∀ acc : JsObject, Canonical (acc ++ rest) →
      rest.foldl (fun (o : JsObject) p => o.define p.1 p.2) acc = acc ++ rest := by
  induction rest with
  | nil => intro acc _; simp
  | cons p r ih =>
    intro acc h
    have hpw := List.pairwise_append.mp h
    have hfresh : JsObject.hasOwn acc p.1 = false :=
      (JsObject.hasOwn_eq_false_iff _ _).mpr
        (fun a ha => (hpw.2.2 a ha p (List.mem_cons_self _ _)).1)
    have hdef : acc.define p.1 p.2 = acc ++ [p] := by
      unfold JsObject.define
      simp only [hfresh, Bool.false_eq_true, if_false]
      cases hk : arrayIndex? p.1 with
      | none => rfl
      | some i =>
        show JsObject.insertIndexed i p.1 p.2 acc = acc ++ [p]
        apply insertIndexed_at_end
        intro a ha
        have := (hpw.2.2 a ha p (List.mem_cons_self _ _)).2
        rw [hk] at this
        cases ha1 : arrayIndex? a.1 with
        | none => rw [ha1] at this; exact absurd this (by simp [orderedRanks])
        | some j => rw [ha1] at this; exact ⟨j, rfl, this⟩
    simp only [List.foldl_cons, hdef]
    have h2 : Canonical ((acc ++ [p]) ++ r) := by
      rw [List.append_assoc]; exact h
    rw [ih (acc ++ [p]) h2, List.append_assoc]
    rfl

theorem ofProps_eq_self (o : JsObject) (h : Canonical o) : JsObject.ofProps o = o := by
  have := foldl_define_append o [] (by simpa using h)
  simpa [JsObject.ofProps] using this

theorem stringValued_delete (o : JsObject) (k : String) (h : StringValued o) :
    StringValued (o.delete k) :=
  fun p hp => h p ((JsObject.mem_delete _ _ _).mp hp).1

theorem stringValued_assignString (o : JsObject) (n digest : String) (h : StringValued o) :
    StringValued (o.assignString n digest) := by
  intro p hp
  rcases mem_assignString o n digest p hp with hp | hp
  · exact ⟨digest, by rw [hp]⟩
  · exact h p hp

theorem stringValued_foldl (props : List (String × JsValue)) (hprops : StringValued props) :
    ∀ acc : JsObject, StringValued acc →
      StringValued (props.foldl (fun (o : JsObject) p => o.define p.1 p.2) acc) := by
  induction props with
  | nil => intro acc h; exact h
  | cons p rest ih =>
    intro acc h
    apply ih (fun q hq => hprops q (List.mem_cons_of_mem _ hq))
    intro q hq
    rcases JsObject.mem_define acc p.1 p.2 q hq with hq | hq
    · rw [hq]; exact hprops p (List.mem_cons_self _ _)
    · exact h q hq

theorem stringValued_ofProps (props : List (String × JsValue)) (h : StringValued props) :
    StringValued (JsObject.ofProps props) :=
  stringValued_foldl props h [] (fun _ hp => by simp at hp)

/-! ## The reference JSON codec round-trips -/

theorem unicodeEscape_control (c : Char) (h : c.toNat < 32) :
    unicodeEscape? '0' '0' (hexDigit (c.toNat / 16)) (hexDigit (c.toNat % 16)) = some c := by
  have key : ∀ n : Fin 32,
      unicodeEscape? '0' '0' (hexDigit (n.val / 16)) (hexDigit (n.val % 16))
        = some (Char.ofNat n.val) := by decide
  have := key ⟨c.toNat, h⟩
  simpa using this

theorem unquoteBody_escape (e ch : Char) (rest : List Char) (he : e ≠ 'u')
    (hs : simpleEscape? e = some ch) :
    unquoteBody ('\\' :: e :: rest)
      = match unquoteBody rest with
        | some (s, r) => some (ch :: s, r)
        | none => none := by
  rw [unquoteBody.eq_def]
  have h1 : ('\\' : Char) ≠ '"' := by decide
  simp only [h1, if_false, if_true, he, hs]
  cases unquoteBody rest with
  | none => rfl
  | some p => rfl

theorem unquoteBody_quoteChar (c : Char) (rest : List Char) :
    unquoteBody (quoteChar c ++ rest)
      = match unquoteBody rest with
        | some (s, r) => some (c :: s, r)
        | none => none := by
  unfold quoteChar
  by_cases h1 : c = '"'
  · subst h1; exact unquoteBody_escape _ _ rest (by decide) (by decide)
  by_cases h2 : c = '\\'
  · subst h2; exact unquoteBody_escape _ _ rest (by decide) (by decide)
  by_cases h3 : c = '\x08'
  · subst h3; exact unquoteBody_escape _ _ rest (by decide) (by decide)
  by_cases h4 : c = '\x0c'
  · subst h4; exact unquoteBody_escape _ _ rest (by decide) (by decide)
  by_cases h5 : c = '\n'
  · subst h5; exact unquoteBody_escape _ _ rest (by decide) (by decide)
  by_cases h6 : c = '\r'
  · subst h6; exact unquoteBody_escape _ _ rest (by decide) (by decide)
  by_cases h7 : c = '\t'
  · subst h7; exact unquoteBody_escape _ _ rest (by decide) (by decide)
  by_cases h8 : c.toNat < 32
  · simp only [h1, h2, h3, h4, h5, h6, h7, h8, if_false, if_true, List.cons_append,
      List.nil_append]
    rw [unquoteBody.eq_def]
    have hq : ('\\' : Char) ≠ '"' := by decide
    simp only [hq, if_false, if_true, unicodeEscape_control c h8]
    cases unquoteBody rest with
    | none => rfl
    | some p => rfl
  · simp only [h1, h2, h3, h4, h5, h6, h7, h8, if_false, List.cons_append, List.nil_append]
    rw [unquoteBody.eq_def]
    simp only [h1, h2, h8, if_false]

theorem unquoteBody_quoteBody (s rest : List Char) :
    unquoteBody (quoteBody s ++ '"' :: rest) = some (s, rest) := by
  induction s with
  | nil =>
    rw [unquoteBody.eq_def]
    simp [quoteBody]
  | cons c cs ih =>
    simp only [quoteBody, List.append_assoc]
    rw [unquoteBody_quoteChar, ih]

theorem string_mk_toList (s : String) : String.mk s.toList = s := rfl

theorem parseMembers_memberText (fuel : Nat) (k v : String) (rest : List Char) :
    parseMembers (fuel + 1) (memberText k v rest)
      = match skipWs rest with
        | [] => none
        | sep :: s6 =>
            if sep = '}' then some ([(k, .string v)], s6)
            else if sep = ',' then
              match parseMembers fuel (skipWs s6) with
              | some (ms, r) => some ((k, .string v) :: ms, r)
              | none => none
            else none := by
  unfold memberText
  rw [parseMembers]
  simp only [ne_eq, not_true_eq_false, if_false, unquoteBody_quoteBody]
  have h1 : skipWs (':' :: ' ' :: '"' :: (quoteBody v.toList ++ '"' :: rest))
      = ':' :: ' ' :: '"' :: (quoteBody v.toList ++ '"' :: rest) := by
    simp [skipWs, List.dropWhile, isJsonWs]
  have h2 : skipWs (' ' :: '"' :: (quoteBody v.toList ++ '"' :: rest))
      = '"' :: (quoteBody v.toList ++ '"' :: rest) := by
    simp [skipWs, List.dropWhile, isJsonWs]
  simp only [h1, h2, ne_eq, not_true_eq_false, if_false, unquoteBody_quoteBody,
    string_mk_toList]

theorem refMembers_cons (k v : String) (rest : List (String × JsValue)) :
    refMembers ((k, .string v) :: rest)
      = ' ' :: ' ' :: memberText k v
          (match rest with
            | [] => ['\n', '}']
            | q :: r => ',' :: '\n' :: refMembers (q :: r)) := by
  cases rest with
  | nil => simp [refMembers, memberText, refValue, quote]
  | cons q r => simp [refMembers, memberText, refValue, quote]

theorem skipWs_indent (rest : List Char) :
    skipWs (' ' :: ' ' :: '"' :: rest) = '"' :: rest := by
  simp [skipWs, List.dropWhile, isJsonWs]

theorem parseMembers_refMembers :
    ∀ (ms : List (String × JsValue)), ms ≠ [] → StringValued ms →
      ∀ (fuel : Nat), ms.length ≤ fuel → ∀ tail : List Char,
        parseMembers fuel (skipWs (refMembers ms ++ tail)) = some (ms, tail)
  | [], h, _, _, _, _ => absurd rfl h
  | [p], _, hs, fuel, hfuel, tail => by
    obtain ⟨k, pv⟩ := p
    obtain ⟨v, hv⟩ := hs (k, pv) (List.mem_cons_self _ _)
    simp only at hv
    subst hv
    obtain ⟨f, rfl⟩ : ∃ f, fuel = f + 1 := ⟨fuel - 1, by simp at hfuel; omega⟩
    rw [refMembers_cons]
    simp only [memberText, List.cons_append, List.append_assoc, List.nil_append, skipWs_indent]
    have := parseMembers_memberText f k v ('\n' :: '}' :: tail)
    simp only [memberText] at this
    rw [this]
    simp [skipWs, List.dropWhile, isJsonWs]
  | p :: q :: rest, _, hs, fuel, hfuel, tail => by
    obtain ⟨k, pv⟩ := p
    obtain ⟨v, hv⟩ := hs (k, pv) (List.mem_cons_self _ _)
    simp only at hv
    subst hv
    obtain ⟨f, rfl⟩ : ∃ f, fuel = f + 1 := ⟨fuel - 1, by simp at hfuel; omega⟩
    have ih := parseMembers_refMembers (q :: rest) (by simp)
      (fun x hx => hs x (List.mem_cons_of_mem _ hx)) f (by simp at hfuel ⊢; omega) tail
    rw [refMembers_cons]
    simp only [memberText, List.cons_append, List.append_assoc, List.nil_append, skipWs_indent]
    have := parseMembers_memberText f k v (',' :: '\n' :: (refMembers (q :: rest) ++ tail))
    simp only [memberText] at this
    rw [this]
    have h3 : skipWs (',' :: '\n' :: (refMembers (q :: rest) ++ tail))
        = ',' :: '\n' :: (refMembers (q :: rest) ++ tail) := by
      simp [skipWs, List.dropWhile, isJsonWs]
    have h4 : skipWs ('\n' :: (refMembers (q :: rest) ++ tail))
        = skipWs (refMembers (q :: rest) ++ tail) := by
      simp [skipWs, List.dropWhile, isJsonWs]
    simp only [h3, h4, ih]
    simp

theorem length_refValue_pos (v : JsValue) : 1 ≤ (refValue v).length := by
  cases v with
  | string s => simp [refValue, quote]
  | bool b => cases b <;> simp [refValue]
  | null => simp [refValue]
  | number _ => simp [refValue]
  | array _ => simp [refValue]
  | object _ => simp [refValue]

theorem length_refMembers :
    ∀ (ms : List (String × JsValue)), 3 * ms.length ≤ (refMembers ms).length
  | [] => by simp
  | [p] => by
    have := length_refValue_pos p.2
    simp only [refMembers, List.length_cons, List.length_append, List.length_nil, quote]
    omega
  | p :: q :: rest => by
    have := length_refMembers (q :: rest)
    have := length_refValue_pos p.2
    simp only [refMembers, List.length_cons, List.length_append, quote] at *
    omega

theorem refLib_roundTrips : refLib.RoundTrips := by
  intro o _ hs
  show refJsonParse (refJsonStringify o) = some (.object o)
  cases o with
  | nil => rfl
  | cons p rest =>
    obtain ⟨k, pv⟩ := p
    obtain ⟨v, hv⟩ := hs (k, pv) (List.mem_cons_self _ _)
    simp only at hv
    subst hv
    have hlen := length_refMembers ((k, .string v) :: rest)
    obtain ⟨X, hX⟩ : ∃ X, refMembers ((k, .string v) :: rest) = ' ' :: ' ' :: '"' :: X :=
      ⟨_, by rw [refMembers_cons]; rfl⟩
    have hparse := parseMembers_refMembers ((k, .string v) :: rest) (by simp) hs
      ('"' :: X).length (by rw [hX] at hlen; simp only [List.length_cons] at hlen ⊢; omega) []
    rw [List.append_nil, hX, skipWs_indent] at hparse
    have h0 : (refJsonStringify ((k, .string v) :: rest)).toList
        = '{' :: '\n' :: ' ' :: ' ' :: '"' :: X := by
      show '{' :: '\n' :: refMembers ((k, .string v) :: rest) = _
      rw [hX]
    unfold refJsonParse
    rw [h0]
    have h1 : skipWs ('{' :: '\n' :: ' ' :: ' ' :: '"' :: X)
        = '{' :: '\n' :: ' ' :: ' ' :: '"' :: X := by
      simp [skipWs, List.dropWhile, isJsonWs]
    have h2 : skipWs ('\n' :: ' ' :: ' ' :: '"' :: X) = '"' :: X := by
      simp [skipWs, List.dropWhile, isJsonWs]
    have hne : ('"' : Char) ≠ '}' := by decide
    simp only [h1, h2, if_true, hne, if_false, hparse]
    simp [endOfText, skipWs]

/-! ## Startup and restart -/

theorem loadTokens_validTokens (L : Lib) (env : Env) (disk : FileSystem)
    (hdir : disk.dirExists = true ∨ env.mkdirFails = false) (hread : env.readFails = false) :
    (loadTokens L env disk).validTokens = storeOfFile L disk.file := by
  unfold loadTokens storeOfFile
  have hg : ¬ (disk.dirExists = false ∧ env.mkdirFails = true) := by
    rintro ⟨h1, h2⟩
    rcases hdir with h | h
    · rw [h1] at h; exact Bool.false_ne_true h
    · rw [h2] at h; exact Bool.false_ne_true h.symm
  simp only [hg, if_false, hread, Bool.false_eq_true]
  cases disk.file with
  | none => rfl
  | some data =>
    simp only
    cases L.jsonParse data with
    | none => rfl
    | some v => cases v <;> rfl

theorem loadTokens_disk (L : Lib) (env : Env) (disk : FileSystem)
    (hdir : disk.dirExists = true ∨ env.mkdirFails = false) (hread : env.readFails = false)
    (hwrite : env.writeFails = false) :
    (loadTokens L env disk).disk.dirExists = true ∧
      ((loadTokens L env disk).disk.file = disk.file ∨
        ((loadTokens L env disk).validTokens = [] ∧
          (loadTokens L env disk).disk.file = some (L.jsonStringify []))) := by
  have hg : ¬ (disk.dirExists = false ∧ env.mkdirFails = true) := by
    rintro ⟨h1, h2⟩
    rcases hdir with h | h
    · rw [h1] at h; exact Bool.false_ne_true h
    · rw [h2] at h; exact Bool.false_ne_true h.symm
  have hsave : ∀ f : Option String,
      (saveTokens L env [] ⟨true, f⟩).1.dirExists = true ∧
        ((saveTokens L env [] ⟨true, f⟩).1.file = f ∨
          (saveTokens L env [] ⟨true, f⟩).1.file = some (L.jsonStringify [])) := by
    intro f
    unfold saveTokens
    simp [hwrite]
  unfold loadTokens
  rw [if_neg hg]
  cases hfile : disk.file with
  | none =>
    exact ⟨(hsave none).1, (hsave none).2.imp id (fun h => ⟨rfl, h⟩)⟩
  | some data =>
    have hs := hsave (some data)
    simp only [hread, Bool.false_eq_true, if_false]
    cases L.jsonParse data with
    | none => exact ⟨rfl, Or.inl rfl⟩
    | some v =>
      cases v with
      | object props => exact ⟨rfl, Or.inl rfl⟩
      | null => exact ⟨hs.1, hs.2.imp id (fun h => ⟨rfl, h⟩)⟩
      | bool _ => exact ⟨hs.1, hs.2.imp id (fun h => ⟨rfl, h⟩)⟩
      | number _ => exact ⟨hs.1, hs.2.imp id (fun h => ⟨rfl, h⟩)⟩
      | string _ => exact ⟨hs.1, hs.2.imp id (fun h => ⟨rfl, h⟩)⟩
      | array _ => exact ⟨hs.1, hs.2.imp id (fun h => ⟨rfl, h⟩)⟩

theorem storeOfFile_stringify (L : Lib) (hrt : L.RoundTrips) (o : JsObject)
    (hc : Canonical o) (hs : StringValued o) :
    storeOfFile L (some (L.jsonStringify o)) = o := by
  unfold storeOfFile
  simp only [hrt o hc hs]
  exact ofProps_eq_self o hc

theorem storeOfFile_wellFormed (L : Lib) (file : Option String)
    (hfile : ∀ data props, file = some data → L.jsonParse data = some (.object props) →
      StringValued props) :
    Canonical (storeOfFile L file) ∧ StringValued (storeOfFile L file) := by
  unfold storeOfFile
  cases file with
  | none => exact ⟨canonical_nil, fun _ hp => by simp at hp⟩
  | some data =>
    simp only
    cases hp : L.jsonParse data with
    | none => exact ⟨canonical_nil, fun _ hp => by simp at hp⟩
    | some v =>
      cases v with
      | object props =>
        exact ⟨canonical_ofProps props, stringValued_ofProps props (hfile data props rfl hp)⟩
      | null => exact ⟨canonical_nil, fun _ hp => by simp at hp⟩
      | bool _ => exact ⟨canonical_nil, fun _ hp => by simp at hp⟩
      | number _ => exact ⟨canonical_nil, fun _ hp => by simp at hp⟩
      | string _ => exact ⟨canonical_nil, fun _ hp => by simp at hp⟩
      | array _ => exact ⟨canonical_nil, fun _ hp => by simp at hp⟩

theorem deleteToken_deleted_inv (L : Lib) (cfg : Config) (env : Env) (st st1 : State)
    (authHeader : Option String) (n m : String)
    (h : deleteToken L cfg env st authHeader n = (st1, .sent (.deleted m))) :
    st1 = ⟨st.validTokens.delete n, (saveTokens L env (st.validTokens.delete n) st.disk).1⟩ := by
  unfold deleteToken at h
  cases hadm : checkAdminToken cfg authHeader with
  | some r =>
    simp only [hadm, Prod.mk.injEq, Outcome.sent.injEq] at h
    rcases checkAdminToken_text cfg authHeader r hadm with hr | hr <;> rw [hr] at h <;>
      simp at h
  | none =>
    simp only [hadm] at h
    cases hcall : st.validTokens.callHasOwnProperty n with
    | none => simp [hcall] at h
    | some b =>
      cases b with
      | false => simp [hcall] at h
      | true =>
        simp only [hcall, Prod.mk.injEq] at h
        exact h.1.symm

theorem getAuth_congr (L : Lib) (st st2 : State) (authHeader : Option String)
    (h : st.validTokens = st2.validTokens) : getAuth L st authHeader = getAuth L st2 authHeader := by
  unfold getAuth
  rw [h]

theorem handle_state (L : Lib) (cfg : Config) (env : Env) (st : State) (req : Request) :
    (handle L cfg env st req).1 = st ∨
      ∃ o : JsObject,
        ((∃ n digest, o = st.validTokens.assignString n digest) ∨
          (∃ n, o = st.validTokens.delete n)) ∧
        (handle L cfg env st req).1 = ⟨o, (saveTokens L env o st.disk).1⟩ := by
  cases req with
  | getAuth h => exact Or.inl rfl
  | getTokens h => exact Or.inl rfl
  | postTokens h name =>
    rcases postTokens_state L cfg env st h name with hst | ⟨n, digest, _, _, hst⟩
    · exact Or.inl hst
    · exact Or.inr ⟨_, Or.inl ⟨n, digest, rfl⟩, hst⟩
  | deleteToken h n =>
    rcases deleteToken_state L cfg env st h n with hst | ⟨_, hst⟩
    · exact Or.inl hst
    · exact Or.inr ⟨_, Or.inr ⟨n, rfl⟩, hst⟩

/-- What holds of every state of `Serving` when startup met no disk fault:
the store is in own-key order and holds strings, the storage directory exists,
and a start that reads the file takes the store in memory from it. -/
theorem serving_invariant (L : Lib) (cfg : Config) (env0 : Env) (disk0 : FileSystem)
    (hrt : L.RoundTrips)
    (hfile : ∀ data props, disk0.file = some data →
      L.jsonParse data = some (.object props) → StringValued props)
    (hload : env0.mkdirFails = false ∧ env0.readFails = false ∧ env0.writeFails = false)
    (st : State) (hst : Serving L cfg env0 disk0 st) :
    Canonical st.validTokens ∧ StringValued st.validTokens ∧ st.disk.dirExists = true ∧
      storeOfFile L st.disk.file = st.validTokens := by
  induction hst with
  | load =>
    have hv := loadTokens_validTokens L env0 disk0 (Or.inr hload.1) hload.2.1
    have hd := loadTokens_disk L env0 disk0 (Or.inr hload.1) hload.2.1 hload.2.2
    have hwf := storeOfFile_wellFormed L disk0.file hfile
    rw [hv]
    refine ⟨hwf.1, hwf.2, hd.1, ?_⟩
    rcases hd.2 with h | ⟨h1, h2⟩
    · rw [h]
    · rw [h2, ← hv, h1]
      exact storeOfFile_stringify L hrt [] canonical_nil (fun _ hp => by simp at hp)
  | step env req hmk hwr _ ih =>
    obtain ⟨hc, hs, hdir, hp⟩ := ih
    rcases handle_state L cfg env _ req with hst | ⟨o, ho, hst⟩
    · rw [hst]; exact ⟨hc, hs, hdir, hp⟩
    · rw [hst, saveTokens_ok L env _ _ (Or.inl hdir) hwr]
      have hwf : Canonical o ∧ StringValued o := by
        rcases ho with ⟨n, digest, rfl⟩ | ⟨n, rfl⟩
        · exact ⟨canonical_assignString _ n digest hc, stringValued_assignString _ n digest hs⟩
        · exact ⟨canonical_delete _ n hc, stringValued_delete _ n hs⟩
      exact ⟨hwf.1, hwf.2, rfl, storeOfFile_stringify L hrt _ hwf.1 hwf.2⟩

theorem loadTokens_wellFormed (L : Lib) (env : Env) (disk : FileSystem)
    (hfile : ∀ data props, disk.file = some data →
      L.jsonParse data = some (.object props) → StringValued props) :
    Canonical (loadTokens L env disk).validTokens ∧
      StringValued (loadTokens L env disk).validTokens := by
  have hnil : Canonical ([] : JsObject) ∧ StringValued ([] : JsObject) :=
    ⟨canonical_nil, fun _ hp => by simp at hp⟩
  unfold loadTokens
  by_cases hg : disk.dirExists = false ∧ env.mkdirFails = true
  · rw [if_pos hg]; exact hnil
  · rw [if_neg hg]
    cases hf : disk.file with
    | none => exact hnil
    | some data =>
      simp only
      by_cases hr : env.readFails = true
      · rw [if_pos hr]; exact hnil
      · rw [if_neg hr]
        cases hp : L.jsonParse data with
        | none => exact hnil
        | some v =>
          cases v with
          | object props =>
            exact ⟨canonical_ofProps props, stringValued_ofProps props (hfile data props hf hp)⟩
          | null => exact hnil
          | bool _ => exact hnil
          | number _ => exact hnil
          | string _ => exact hnil
          | array _ => exact hnil

/-- What holds of every state of `Serving`, whatever happened at startup: the
store is in own-key order and holds strings. -/
theorem serving_wellFormed (L : Lib) (cfg : Config) (env0 : Env) (disk0 : FileSystem)
    (hfile : ∀ data props, disk0.file = some data →
      L.jsonParse data = some (.object props) → StringValued props)
    (st : State) (hst : Serving L cfg env0 disk0 st) :
    Canonical st.validTokens ∧ StringValued st.validTokens := by
  induction hst with
  | load => exact loadTokens_wellFormed L env0 disk0 hfile
  | step env req _ _ _ ih =>
    rcases handle_state L cfg env _ req with hst | ⟨o, ho, hst⟩
    · rw [hst]; exact ih
    · rw [hst]
      rcases ho with ⟨n, digest, rfl⟩ | ⟨n, rfl⟩
      · exact ⟨canonical_assignString _ n digest ih.1, stringValued_assignString _ n digest ih.2⟩
      · exact ⟨canonical_delete _ n ih.1, stringValued_delete _ n ih.2⟩

theorem restart_after_save (L : Lib) (hrt : L.RoundTrips) (env env2 : Env) (o : JsObject)
    (disk : FileSystem) (hc : Canonical o) (hs : StringValued o)
    (hmk : env.mkdirFails = false) (hwr : env.writeFails = false)
    (hread : env2.readFails = false) :
    (saveTokens L env o disk).1.file = some (L.jsonStringify o) ∧
      (loadTokens L env2 (saveTokens L env o disk).1).validTokens = o := by
  rw [saveTokens_ok L env o disk (Or.inr hmk) hwr]
  refine ⟨rfl, ?_⟩
  rw [loadTokens_validTokens L env2 _ (Or.inl rfl) hread]
  exact storeOfFile_stringify L hrt o hc hs

/-- C8. Provided `JSON.parse` inverts `JSON.stringify` on plain objects of
strings and the storage file found at startup is absent, unparsable, not an
object or an object of strings: in every state reached from Load by requests
whose disk writes succeed, a Create answered 201 and a Revoke answered 200
leave in the storage file the serialization of the whole in-memory map, Load
applied to that disk (a restart that can read the file) yields a map equal to
the in-memory map, and GET /auth answers every header after the restart as
before it; and when startup met no disk fault, the same holds of a restart
from every state reached. -/
theorem restart_reproduces_store (L : Lib) (cfg : Config) (env0 : Env) (disk0 : FileSystem)
    (hrt : L.RoundTrips)
    (hfile : ∀ data props, disk0.file = some data →
      L.jsonParse data = some (.object props) → StringValued props)
    (st : State) (hst : Serving L cfg env0 disk0 st) :
    (∀ (env env2 : Env) (authHeader : Option String) (name : Option JsValue) (st1 : State)
        (n c : String), env.mkdirFails = false → env.writeFails = false →
        env2.readFails = false →
        postTokens L cfg env st authHeader name = (st1, .sent (.created n c)) →
        st1.disk.file = some (L.jsonStringify st1.validTokens) ∧
          (loadTokens L env2 st1.disk).validTokens = st1.validTokens ∧
          ∀ h, getAuth L (loadTokens L env2 st1.disk) h = getAuth L st1 h) ∧
      (∀ (env env2 : Env) (authHeader : Option String) (n m : String) (st1 : State),
        env.mkdirFails = false → env.writeFails = false → env2.readFails = false →
        deleteToken L cfg env st authHeader n = (st1, .sent (.deleted m)) →
        st1.disk.file = some (L.jsonStringify st1.validTokens) ∧
          (loadTokens L env2 st1.disk).validTokens = st1.validTokens ∧
          ∀ h, getAuth L (loadTokens L env2 st1.disk) h = getAuth L st1 h) ∧
      (env0.mkdirFails = false → env0.readFails = false → env0.writeFails = false →
        ∀ env2 : Env, env2.readFails = false →
          (loadTokens L env2 st.disk).validTokens = st.validTokens ∧
            ∀ h, getAuth L (loadTokens L env2 st.disk) h = getAuth L st h) := by
  obtain ⟨hc, hs⟩ := serving_wellFormed L cfg env0 disk0 hfile st hst
  refine ⟨?_, ?_, ?_⟩
  · intro env env2 authHeader name st1 n c hmk hwr hread hcreate
    obtain ⟨_, _, _, _, _, _, digest, _, hst1⟩ :=
      postTokens_created_inv L cfg env st st1 authHeader name n c hcreate
    have h := restart_after_save L hrt env env2 _ st.disk
      (canonical_assignString _ n digest hc) (stringValued_assignString _ n digest hs)
      hmk hwr hread
    rw [hst1]
    exact ⟨h.1, h.2, fun hd => getAuth_congr L _ _ hd h.2⟩
  · intro env env2 authHeader n m st1 hmk hwr hread hdelete
    have h := restart_after_save L hrt env env2 _ st.disk
      (canonical_delete _ n hc) (stringValued_delete _ n hs) hmk hwr hread
    rw [deleteToken_deleted_inv L cfg env st st1 authHeader n m hdelete]
    exact ⟨h.1, h.2, fun hd => getAuth_congr L _ _ hd h.2⟩
  · intro hmk hrd hwr env2 hread
    obtain ⟨_, _, hdir, hp⟩ :=
      serving_invariant L cfg env0 disk0 hrt hfile ⟨hmk, hrd, hwr⟩ st hst
    have h : (loadTokens L env2 st.disk).validTokens = st.validTokens := by
      rw [loadTokens_validTokens L env2 st.disk (Or.inl hdir) hread, hp]
    exact ⟨h, fun hd => getAuth_congr L _ _ hd h⟩

/-- A concrete instance of `restart_reproduces_store`: after startup on a
blank disk and Create(svc-a), the file holds the serialization of the map, a
restart loads the same map, and the issued credential is identified as before. -/
theorem restart_reproduces_store_witness :
    servingState.disk.file = some (refLib.jsonStringify servingState.validTokens) ∧
      (loadTokens refLib otherEnv servingState.disk).validTokens = servingState.validTokens ∧
      getAuth refLib (loadTokens refLib otherEnv servingState.disk)
          (some ("Bearer " ++ sampleToken))
        = getAuth refLib servingState (some ("Bearer " ++ sampleToken)) :=
  have h := (restart_reproduces_store refLib sampleConfig sampleEnv blankDisk refLib_roundTrips
    (fun _ _ h => by simp [blankDisk] at h) _ Serving.load).1 sampleEnv otherEnv adminHeader
    (some (.string "svc-a")) servingState "svc-a" sampleToken rfl rfl rfl (by rfl)
  ⟨h.1, h.2.1, h.2.2 _⟩

/-- What `loadTokens` does with a storage file that `JSON.parse` rejects: the
store in memory is empty and the file is left as it was. -/
theorem loadTokens_unparsable (L : Lib) (env : Env) (disk : FileSystem) (data : String)
    (hfile : disk.file = some data) (hparse : L.jsonParse data = none) :
    (loadTokens L env disk).validTokens = [] ∧ (loadTokens L env disk).disk.file = some data := by
  unfold loadTokens
  by_cases hg : disk.dirExists = false ∧ env.mkdirFails = true
  · simp [hg, hfile]
  · by_cases hr : env.readFails = true
    · simp [hg, hfile, hr]
    · simp [hg, hfile, hr, hparse]

/-- What `loadTokens` does with a storage file whose JSON value is not an
object, when no disk operation fails: the store in memory is empty and the
file is overwritten with the serialization of the empty store. -/
theorem loadTokens_not_object (L : Lib) (env : Env) (disk : FileSystem) (data : String)
    (v : JsValue) (hfile : disk.file = some data) (hparse : L.jsonParse data = some v)
    (hv : ∀ props, v ≠ .object props)
    (hmk : env.mkdirFails = false) (hrd : env.readFails = false)
    (hwr : env.writeFails = false) :
    (loadTokens L env disk).validTokens = [] ∧
      (loadTokens L env disk).disk.file = some (L.jsonStringify []) := by
  have hsave := saveTokens_ok L env [] ⟨true, disk.file⟩ (Or.inl rfl) hwr
  unfold loadTokens
  have hg : ¬ (disk.dirExists = false ∧ env.mkdirFails = true) := by
    rintro ⟨_, h2⟩
    rw [hmk] at h2
    exact Bool.false_ne_true h2
  simp only [hg, if_false, hfile, hrd, Bool.false_eq_true, hparse]
  rw [hfile] at hsave
  cases v with
  | object props => exact absurd rfl (hv props)
  | null => simp [hsave]
  | bool _ => simp [hsave]
  | number _ => simp [hsave]
  | string _ => simp [hsave]
  | array _ => simp [hsave]

/-- What `loadTokens` does with a storage file that holds the JSON value
`[]`, on the reference library: the store in memory is empty and the file is
overwritten with the serialization of the empty store. -/
theorem loadTokens_array_file :
    (loadTokens refLib sampleEnv arrayDisk).validTokens = [] ∧
      (loadTokens refLib sampleEnv arrayDisk).disk.file = some (refLib.jsonStringify []) := by
  constructor <;> rfl

/-- C7, the code at a failing input. The storage file holds `corruptText`
(an opening brace followed by `oops`), which is not valid JSON: `loadTokens`
returns with an empty store in memory, and the file still holds that text, not
the serialization `{}` of the empty store. -/
theorem loadTokens_keeps_corrupt_file :
    refLib.jsonParse corruptText = none ∧
      (loadTokens refLib sampleEnv corruptDisk).validTokens = [] ∧
      (loadTokens refLib sampleEnv corruptDisk).disk.file = some corruptText ∧
      refLib.jsonStringify [] = "{}" ∧
      (loadTokens refLib sampleEnv corruptDisk).disk.file ≠ some (refLib.jsonStringify []) := by
  refine ⟨rfl, rfl, rfl, rfl, ?_⟩
  decide

/-! ## Two Creates for one name -/

theorem postTokensBegin_fresh (L : Lib) (cfg : Config) (env : Env) (st : State)
    (authHeader : Option String) (n : String)
    (hadmin : checkAdminToken cfg authHeader = none)
    (hvalid : n ≠ "" ∧ trim n ≠ "")
    (hshadow : st.validTokens.hasOwn "hasOwnProperty" = false)
    (hfresh : st.validTokens.hasOwn n = false) :
    postTokensBegin L cfg env st authHeader (some (.string n))
      = .awaiting ⟨n, generateToken env.entropy, hashToken L env (generateToken env.entropy)⟩ := by
  simp [postTokensBegin, hadmin, hvalid.1, hvalid.2, JsObject.callHasOwnProperty, hshadow, hfresh]

theorem postTokensBegin_conflict (L : Lib) (cfg : Config) (env : Env) (st : State)
    (authHeader : Option String) (n : String)
    (hadmin : checkAdminToken cfg authHeader = none)
    (hvalid : n ≠ "" ∧ trim n ≠ "")
    (hshadow : st.validTokens.hasOwn "hasOwnProperty" = false)
    (hown : st.validTokens.hasOwn n = true) :
    postTokensBegin L cfg env st authHeader (some (.string n))
      = .done (.sent (.text 409
          ("Conflict: A token with the name '" ++ n ++ "' already exists."))) := by
  simp [postTokensBegin, hadmin, hvalid.1, hvalid.2, JsObject.callHasOwnProperty, hshadow, hown]

theorem findUser_after_create (L : Lib) (o : JsObject) (n c d : String)
    (hfresh : o.hasOwn n = false) (hproto : n ≠ "__proto__") (hc : c ≠ "") (hd : d ≠ "")
    (hver : L.bcryptCompare c (.string d) = some true)
    (hold : ∀ p ∈ o, verifyToken L (some c) p.2 = some false) :
    findUser L (some c) (o.assignString n d) = some (some n) := by
  rw [assignString_of_new o n d hfresh hproto]
  apply findUser_unique L (some c) n (.string d) _ (JsObject.mem_define_self _ _ _)
  · rw [verifyToken_string L c d hc hd]; exact hver
  · intro p hp
    rcases (JsObject.mem_define_of_not_own _ _ _ hfresh p).mp hp with h | h
    · exact Or.inl h
    · exact Or.inr (hold p h)

theorem mem_after_overwrite (o : JsObject) (n d d2 : String)
    (hfresh : o.hasOwn n = false) (hproto : n ≠ "__proto__") :
    (o.assignString n d).assignString n d2
        = (o.define n (.string d)).define n (.string d2) ∧
      ∀ p ∈ (o.define n (.string d)).define n (.string d2),
        p = (n, .string d2) ∨ p ∈ o := by
  rw [assignString_of_new o n d hfresh hproto]
  have hown : (o.define n (.string d)).hasOwn n = true := by simp [JsObject.hasOwn_define]
  refine ⟨by simp [JsObject.assignString, hown], ?_⟩
  intro p hp
  rcases (JsObject.mem_define_of_own _ _ _ hown p).mp hp with h | ⟨h, hne⟩
  · exact Or.inl h
  · rcases (JsObject.mem_define_of_not_own _ _ _ hfresh p).mp h with h2 | h2
    · rw [h2] at hne; exact absurd rfl hne
    · exact Or.inr h2

theorem findUser_after_overwrite (L : Lib) (o : JsObject) (n d c2 d2 : String)
    (hfresh : o.hasOwn n = false) (hproto : n ≠ "__proto__")
    (hc2 : c2 ≠ "") (hd2 : d2 ≠ "")
    (hver : L.bcryptCompare c2 (.string d2) = some true)
    (hold2 : ∀ p ∈ o, verifyToken L (some c2) p.2 = some false) :
    findUser L (some c2) ((o.assignString n d).assignString n d2) = some (some n) := by
  obtain ⟨heq, hmem⟩ := mem_after_overwrite o n d d2 hfresh hproto
  rw [heq]
  apply findUser_unique L (some c2) n (.string d2) _ (JsObject.mem_define_self _ _ _)
  · rw [verifyToken_string L c2 d2 hc2 hd2]; exact hver
  · intro p hp
    exact (hmem p hp).imp id (hold2 p)

theorem findUser_overwritten (L : Lib) (o : JsObject) (n c d d2 : String)
    (hfresh : o.hasOwn n = false) (hproto : n ≠ "__proto__")
    (hc : c ≠ "") (hd2 : d2 ≠ "")
    (hcross : L.bcryptCompare c (.string d2) = some false)
    (hold : ∀ p ∈ o, verifyToken L (some c) p.2 = some false) :
    findUser L (some c) ((o.assignString n d).assignString n d2) = some none := by
  obtain ⟨heq, hmem⟩ := mem_after_overwrite o n d d2 hfresh hproto
  rw [heq]
  apply findUser_none_of_all_false
  intro p hp
  rcases hmem p hp with h | h
  · rw [h, verifyToken_string L c d2 hc hd2]; exact hcross
  · exact hold p h

theorem getAuth_of_findUser_some (L : Lib) (st : State) (entropy : Nat → Nat) (user : String)
    (huser : user ≠ "") (hheader : validHeaderValue user = true)
    (h : findUser L (some (generateToken entropy)) st.validTokens = some (some user)) :
    getAuth L st (some ("Bearer " ++ generateToken entropy)) = .sent (.authenticated user) := by
  rw [getAuth_bearer, providedToken_of_token, h]
  exact respondAuth_valid user huser hheader

theorem getAuth_of_findUser_none (L : Lib) (st : State) (entropy : Nat → Nat)
    (h : findUser L (some (generateToken entropy)) st.validTokens = some none) :
    (getAuth L st (some ("Bearer " ++ generateToken entropy))).status? = some 401 := by
  rw [getAuth_bearer, providedToken_of_token, h]
  rfl

theorem interleavings_complete (s : List Turn) :
    isInterleaving s = true ↔ s ∈ interleavings := by
  constructor
  · intro h
    have hlen : s.length = 4 := by
      simp only [isInterleaving, Bool.and_eq_true, beq_iff_eq] at h
      exact h.1.1.1
    match s, hlen with
    | [a, b, c, d], _ =>
      revert h
      revert a b c d
      decide
  · intro h
    revert s
    decide

/-- C9, as amended. The handlers are not serialized with respect to each
other: each part of a handler runs without interruption, and between the
conflict check and the store write of a Create lies an `await`. Take a store
without an own property `hasOwnProperty`, a valid name `n` not in the store
that is neither `__proto__` nor `hasOwnProperty` and can stand as a header
value, and two concurrent Creates for `n` whose hashing succeeds, each digest
verifying its own credential only and no stored value verifying either
credential. For every interleaving, one request (the last to write when both
conflict checks ran before either write, the first to run otherwise) is
acknowledged with 201 and its credential is identified as `n` afterwards; the
other is acknowledged with 201 as well in the first case, its credential,
when it differs, being refused with 401 afterwards, and is refused with 409
in the second. -/
theorem concurrent_creates (L : Lib) (cfg : Config) (ra rb : CreateRequest) (st : State)
    (n dA dB : String)
    (hnameA : ra.name = some (.string n)) (hnameB : rb.name = some (.string n))
    (hadminA : checkAdminToken cfg ra.authHeader = none)
    (hadminB : checkAdminToken cfg rb.authHeader = none)
    (hvalid : n ≠ "" ∧ trim n ≠ "")
    (hfresh : st.validTokens.hasOwn n = false)
    (hshadow : st.validTokens.hasOwn "hasOwnProperty" = false)
    (hproto : n ≠ "__proto__") (hname : n ≠ "hasOwnProperty")
    (hheader : validHeaderValue n = true)
    (hhashA : hashToken L ra.beginEnv ra.token = some dA)
    (hhashB : hashToken L rb.beginEnv rb.token = some dB)
    (hdA : dA ≠ "" ∧ ∀ t, L.bcryptCompare t (.string dA) = some (decide (t = ra.token)))
    (hdB : dB ≠ "" ∧ ∀ t, L.bcryptCompare t (.string dB) = some (decide (t = rb.token)))
    (holdA : ∀ p ∈ st.validTokens, verifyToken L (some ra.token) p.2 = some false)
    (holdB : ∀ p ∈ st.validTokens, verifyToken L (some rb.token) p.2 = some false)
    (s : List Turn) (hsched : isInterleaving s = true) :
    (winnerIsA s = true →
        (race L cfg ra rb st s).a = .finished (.sent (.created n ra.token)) ∧
          getAuth L (race L cfg ra rb st s).st (some ("Bearer " ++ ra.token))
            = .sent (.authenticated n) ∧
          (overlapped s = true →
            (race L cfg ra rb st s).b = .finished (.sent (.created n rb.token)) ∧
              (ra.token ≠ rb.token →
                (getAuth L (race L cfg ra rb st s).st (some ("Bearer " ++ rb.token))).status?
                  = some 401)) ∧
          (overlapped s = false → (race L cfg ra rb st s).b.status? = some 409)) ∧
      (winnerIsA s = false →
        (race L cfg ra rb st s).b = .finished (.sent (.created n rb.token)) ∧
          getAuth L (race L cfg ra rb st s).st (some ("Bearer " ++ rb.token))
            = .sent (.authenticated n) ∧
          (overlapped s = true →
            (race L cfg ra rb st s).a = .finished (.sent (.created n ra.token)) ∧
              (ra.token ≠ rb.token →
                (getAuth L (race L cfg ra rb st s).st (some ("Bearer " ++ ra.token))).status?
                  = some 401)) ∧
          (overlapped s = false → (race L cfg ra rb st s).a.status? = some 409)) := by
  have hs : s ∈ interleavings := (interleavings_complete s).mp hsched
  have hcA : ra.token ≠ "" := generateToken_ne_empty _
  have hcB : rb.token ≠ "" := generateToken_ne_empty _
  have hbA : postTokensBegin L cfg ra.beginEnv st ra.authHeader ra.name
      = .awaiting ⟨n, ra.token, some dA⟩ := by
    rw [hnameA, postTokensBegin_fresh L cfg _ st _ n hadminA hvalid hshadow hfresh]
    show CreateStep.awaiting ⟨n, ra.token, hashToken L ra.beginEnv ra.token⟩ = _
    rw [hhashA]
  have hbB : postTokensBegin L cfg rb.beginEnv st rb.authHeader rb.name
      = .awaiting ⟨n, rb.token, some dB⟩ := by
    rw [hnameB, postTokensBegin_fresh L cfg _ st _ n hadminB hvalid hshadow hfresh]
    show CreateStep.awaiting ⟨n, rb.token, hashToken L rb.beginEnv rb.token⟩ = _
    rw [hhashB]
  have hlate : ∀ (d : String) (disk : FileSystem),
      (st.validTokens.assignString n d).hasOwn "hasOwnProperty" = false ∧
        (st.validTokens.assignString n d).hasOwn n = true := by
    intro d disk
    rw [assignString_of_new _ n d hfresh hproto]
    constructor
    · rw [JsObject.hasOwn_define, hshadow, Bool.false_or, beq_eq_false_iff_ne]
      exact fun h => hname h.symm
    · simp [JsObject.hasOwn_define]
  have hlateA : ∀ (d : String) (disk : FileSystem),
      postTokensBegin L cfg ra.beginEnv ⟨st.validTokens.assignString n d, disk⟩
        ra.authHeader ra.name
        = .done (.sent (.text 409
            ("Conflict: A token with the name '" ++ n ++ "' already exists."))) := by
    intro d disk
    rw [hnameA]
    exact postTokensBegin_conflict L cfg _ _ _ n hadminA hvalid (hlate d disk).1 (hlate d disk).2
  have hlateB : ∀ (d : String) (disk : FileSystem),
      postTokensBegin L cfg rb.beginEnv ⟨st.validTokens.assignString n d, disk⟩
        rb.authHeader rb.name
        = .done (.sent (.text 409
            ("Conflict: A token with the name '" ++ n ++ "' already exists."))) := by
    intro d disk
    rw [hnameB]
    exact postTokensBegin_conflict L cfg _ _ _ n hadminB hvalid (hlate d disk).1 (hlate d disk).2
  have hverA : L.bcryptCompare ra.token (.string dA) = some true := by simp [hdA.2]
  have hverB : L.bcryptCompare rb.token (.string dB) = some true := by simp [hdB.2]
  have hcrossAB : ra.token ≠ rb.token →
      L.bcryptCompare ra.token (.string dB) = some false := by
    intro hdiff; simp [hdB.2, hdiff]
  have hcrossBA : ra.token ≠ rb.token →
      L.bcryptCompare rb.token (.string dA) = some false := by
    intro hdiff; simp [hdA.2, Ne.symm hdiff]
  have hsoloA := findUser_after_create L st.validTokens n ra.token dA hfresh hproto hcA hdA.1
    hverA holdA
  have hsoloB := findUser_after_create L st.validTokens n rb.token dB hfresh hproto hcB hdB.1
    hverB holdB
  have hAB : findUser L (some rb.token)
        ((st.validTokens.assignString n dA).assignString n dB) = some (some n) ∧
      (ra.token ≠ rb.token → findUser L (some ra.token)
        ((st.validTokens.assignString n dA).assignString n dB) = some none) :=
    ⟨findUser_after_overwrite L st.validTokens n dA rb.token dB hfresh hproto hcB hdB.1 hverB
        holdB,
      fun hdiff => findUser_overwritten L st.validTokens n ra.token dA dB hfresh hproto hcA
        hdB.1 (hcrossAB hdiff) holdA⟩
  have hBA : findUser L (some ra.token)
        ((st.validTokens.assignString n dB).assignString n dA) = some (some n) ∧
      (ra.token ≠ rb.token → findUser L (some rb.token)
        ((st.validTokens.assignString n dB).assignString n dA) = some none) :=
    ⟨findUser_after_overwrite L st.validTokens n dB ra.token dA hfresh hproto hcA hdA.1 hverA
        holdA,
      fun hdiff => findUser_overwritten L st.validTokens n rb.token dB dA hfresh hproto hcB
        hdA.1 (hcrossBA hdiff) holdB⟩
  have hn : n ≠ "" := hvalid.1
  have conflict : (Progress.finished (.sent (.text 409
      ("Conflict: A token with the name '" ++ n ++ "' already exists.")))).status? = some 409 :=
    rfl
  simp only [interleavings, List.mem_cons, List.mem_singleton, List.not_mem_nil, or_false] at hs
  rcases hs with rfl | rfl | rfl | rfl | rfl | rfl
  · have hr : race L cfg ra rb st [.beginA, .resumeA, .beginB, .resumeB]
        = ⟨⟨st.validTokens.assignString n dA,
              (saveTokens L ra.resumeEnv (st.validTokens.assignString n dA) st.disk).1⟩,
            .finished (.sent (.created n ra.token)),
            .finished (.sent (.text 409
              ("Conflict: A token with the name '" ++ n ++ "' already exists.")))⟩ := by
      simp [race, Race.turn, beginTurn, resumeTurn, hbA, hlateB, postTokensResume]
    rw [hr]
    exact ⟨fun _ => ⟨rfl, getAuth_of_findUser_some L _ _ n hn hheader hsoloA,
      fun h => absurd h (by decide), fun _ => conflict⟩, fun h => absurd h (by decide)⟩
  · have hr : race L cfg ra rb st [.beginB, .resumeB, .beginA, .resumeA]
        = ⟨⟨st.validTokens.assignString n dB,
              (saveTokens L rb.resumeEnv (st.validTokens.assignString n dB) st.disk).1⟩,
            .finished (.sent (.text 409
              ("Conflict: A token with the name '" ++ n ++ "' already exists."))),
            .finished (.sent (.created n rb.token))⟩ := by
      simp [race, Race.turn, beginTurn, resumeTurn, hbB, hlateA, postTokensResume]
    rw [hr]
    exact ⟨fun h => absurd h (by decide), fun _ => ⟨rfl,
      getAuth_of_findUser_some L _ _ n hn hheader hsoloB, fun h => absurd h (by decide),
      fun _ => conflict⟩⟩
  · have hr : race L cfg ra rb st [.beginA, .beginB, .resumeA, .resumeB]
        = ⟨⟨(st.validTokens.assignString n dA).assignString n dB,
              (saveTokens L rb.resumeEnv ((st.validTokens.assignString n dA).assignString n dB)
                (saveTokens L ra.resumeEnv (st.validTokens.assignString n dA) st.disk).1).1⟩,
            .finished (.sent (.created n ra.token)),
            .finished (.sent (.created n rb.token))⟩ := by
      simp [race, Race.turn, beginTurn, resumeTurn, hbA, hbB, postTokensResume]
    rw [hr]
    exact ⟨fun h => absurd h (by decide), fun _ => ⟨rfl,
      getAuth_of_findUser_some L _ _ n hn hheader hAB.1,
      fun _ => ⟨rfl, fun hdiff => getAuth_of_findUser_none L _ _ (hAB.2 hdiff)⟩,
      fun h => absurd h (by decide)⟩⟩
  · have hr : race L cfg ra rb st [.beginB, .beginA, .resumeA, .resumeB]
        = ⟨⟨(st.validTokens.assignString n dA).assignString n dB,
              (saveTokens L rb.resumeEnv ((st.validTokens.assignString n dA).assignString n dB)
                (saveTokens L ra.resumeEnv (st.validTokens.assignString n dA) st.disk).1).1⟩,
            .finished (.sent (.created n ra.token)),
            .finished (.sent (.created n rb.token))⟩ := by
      simp [race, Race.turn, beginTurn, resumeTurn, hbA, hbB, postTokensResume]
    rw [hr]
    exact ⟨fun h => absurd h (by decide), fun _ => ⟨rfl,
      getAuth_of_findUser_some L _ _ n hn hheader hAB.1,
      fun _ => ⟨rfl, fun hdiff => getAuth_of_findUser_none L _ _ (hAB.2 hdiff)⟩,
      fun h => absurd h (by decide)⟩⟩
  · have hr : race L cfg ra rb st [.beginA, .beginB, .resumeB, .resumeA]
        = ⟨⟨(st.validTokens.assignString n dB).assignString n dA,
              (saveTokens L ra.resumeEnv ((st.validTokens.assignString n dB).assignString n dA)
                (saveTokens L rb.resumeEnv (st.validTokens.assignString n dB) st.disk).1).1⟩,
            .finished (.sent (.created n ra.token)),
            .finished (.sent (.created n rb.token))⟩ := by
      simp [race, Race.turn, beginTurn, resumeTurn, hbA, hbB, postTokensResume]
    rw [hr]
    exact ⟨fun _ => ⟨rfl, getAuth_of_findUser_some L _ _ n hn hheader hBA.1,
      fun _ => ⟨rfl, fun hdiff => getAuth_of_findUser_none L _ _ (hBA.2 hdiff)⟩,
      fun h => absurd h (by decide)⟩,
      fun h => absurd h (by decide)⟩
  · have hr : race L cfg ra rb st [.beginB, .beginA, .resumeB, .resumeA]
        = ⟨⟨(st.validTokens.assignString n dB).assignString n dA,
              (saveTokens L ra.resumeEnv ((st.validTokens.assignString n dB).assignString n dA)
                (saveTokens L rb.resumeEnv (st.validTokens.assignString n dB) st.disk).1).1⟩,
            .finished (.sent (.created n ra.token)),
            .finished (.sent (.created n rb.token))⟩ := by
      simp [race, Race.turn, beginTurn, resumeTurn, hbA, hbB, postTokensResume]
    rw [hr]
    exact ⟨fun _ => ⟨rfl, getAuth_of_findUser_some L _ _ n hn hheader hBA.1,
      fun _ => ⟨rfl, fun hdiff => getAuth_of_findUser_none L _ _ (hBA.2 hdiff)⟩,
      fun h => absurd h (by decide)⟩,
      fun h => absurd h (by decide)⟩

/-- A concrete instance of `concurrent_creates`: two Creates for `svc-a` on
the empty store of the reference library, both conflict checks running before
either store write and `B` writing last, the credential of `A` being refused
afterwards. -/
theorem concurrent_creates_witness :
    (race refLib sampleConfig requestA requestB emptyState
        [.beginA, .beginB, .resumeA, .resumeB]).b
        = .finished (.sent (.created "svc-a" requestB.token)) ∧
      getAuth refLib
          (race refLib sampleConfig requestA requestB emptyState
            [.beginA, .beginB, .resumeA, .resumeB]).st
          (some ("Bearer " ++ requestB.token)) = .sent (.authenticated "svc-a") ∧
      (getAuth refLib
          (race refLib sampleConfig requestA requestB emptyState
            [.beginA, .beginB, .resumeA, .resumeB]).st
          (some ("Bearer " ++ requestA.token))).status? = some 401 :=
  have h := (concurrent_creates refLib sampleConfig requestA requestB emptyState "svc-a"
    "$2b$10$$sk-proj-AAAAAAAAAAAAAAAAAAAAAAAAAAAAAAAAAAAAAAAAAAAAAAAA"
    "$2b$10$.$sk-proj-AQEBAQEBAQEBAQEBAQEBAQEBAQEBAQEBAQEBAQEBAQEBAQEB"
    rfl rfl (by decide) (by decide) (by decide) (by decide) (by decide) (by decide) (by decide)
    (by decide) (by decide) (by decide)
    ⟨by decide, refCompare_sample⟩ ⟨by decide, refCompare_other⟩
    (by simp [emptyState]) (by simp [emptyState])
    [.beginA, .beginB, .resumeA, .resumeB] (by decide)).2 (by decide)
  ⟨h.1, h.2.1, (h.2.2.1 (by decide)).2 (by decide)⟩

/-- C9, counterexample. Two Creates for `svc-a` on the empty store, both
conflict checks running before either store write: both are acknowledged with
201, and the credential acknowledged to `A` is refused with 401 afterwards. -/
theorem concurrent_creates_lose_update :
    [Turn.beginA, Turn.beginB, Turn.resumeA, Turn.resumeB] ∈ interleavings ∧
      (race refLib sampleConfig requestA requestB emptyState
        [.beginA, .beginB, .resumeA, .resumeB]).a.status? = some 201 ∧
      (race refLib sampleConfig requestA requestB emptyState
        [.beginA, .beginB, .resumeA, .resumeB]).b.status? = some 201 ∧
      (getAuth refLib
        (race refLib sampleConfig requestA requestB emptyState
          [.beginA, .beginB, .resumeA, .resumeB]).st
        (some ("Bearer " ++ requestA.token))).status? = some 401 := by
  decide

/-! ## Names that meet `Object.prototype` -/

/-- Create(`__proto__`) on the empty store answers 201, the assignment
reaches the inherited setter and stores nothing: the credential is refused
with 401 and a second Create(`__proto__`) answers 201 again. -/
theorem create_proto_stores_nothing :
    (postTokens refLib sampleConfig sampleEnv emptyState adminHeader
        (some (.string "__proto__"))).2 = .sent (.created "__proto__" sampleToken) ∧
      protoState.validTokens.keys = [] ∧
      (getAuth refLib protoState (some ("Bearer " ++ sampleToken))).status? = some 401 ∧
      (postTokens refLib sampleConfig otherEnv protoState adminHeader
        (some (.string "__proto__"))).2.status? = some 201 := by
  decide

/-- After Create(`hasOwnProperty`) the store has an own property of that name,
and every later call `validTokens.hasOwnProperty(...)` raises: a second
Create(`hasOwnProperty`), a Create of another name and every Revoke leave
their handler by an exception, while the credential is still identified. -/
theorem create_hasOwnProperty_shadows_method :
    shadowedState.validTokens.keys = ["hasOwnProperty"] ∧
      getAuth refLib shadowedState (some ("Bearer " ++ sampleToken))
        = .sent (.authenticated "hasOwnProperty") ∧
      (postTokens refLib sampleConfig otherEnv shadowedState adminHeader
        (some (.string "hasOwnProperty"))).2 = .threw ∧
      (postTokens refLib sampleConfig otherEnv shadowedState adminHeader
        (some (.string "svc-a"))).2 = .threw ∧
      (deleteToken refLib sampleConfig sampleEnv shadowedState adminHeader "hasOwnProperty").2
        = .threw ∧
      (deleteToken refLib sampleConfig sampleEnv shadowedState adminHeader "svc-a").2
        = .threw := by
  decide

/-! ## Names that are no header value -/

/-- Create of a name with a line feed, or with a character above `0xff`,
answers 201 and stores the name; `GET /auth` with the credential then finds
the name, `res.setHeader` raises on it, and no response is sent. -/
theorem create_invalid_header_name_breaks_identify :
    (postTokens refLib sampleConfig sampleEnv emptyState adminHeader
        (some (.string "a\nb"))).2 = .sent (.created "a\nb" sampleToken) ∧
      newlineState.validTokens.keys = ["a\nb"] ∧
      getAuth refLib newlineState (some ("Bearer " ++ sampleToken)) = .threw ∧
      (postTokens refLib sampleConfig sampleEnv emptyState adminHeader
        (some (.string "svc-λ"))).2 = .sent (.created "svc-λ" sampleToken) ∧
      lambdaState.validTokens.keys = ["svc-λ"] ∧
      getAuth refLib lambdaState (some ("Bearer " ++ sampleToken)) = .threw := by
  decide

/-! ## The scenario of the specification -/

/-- The scenario run on the reference library: Create(svc-a) answers 201 with
a credential, GET /auth with that credential answers 200 for `svc-a`, with
another credential 401, Revoke(svc-a) answers 200, and GET /auth with the
first credential then answers 401. -/
theorem scenario_runs :
    (postTokens refLib sampleConfig sampleEnv emptyState adminHeader (some (.string "svc-a"))).2
        = .sent (.created "svc-a" sampleToken) ∧
      getAuth refLib issuedState (some ("Bearer " ++ sampleToken))
        = .sent (.authenticated "svc-a") ∧
      (getAuth refLib issuedState (some ("Bearer " ++ requestB.token))).status? = some 401 ∧
      (deleteToken refLib sampleConfig sampleEnv issuedState adminHeader "svc-a").2
        = .sent (.deleted "svc-a") ∧
      (getAuth refLib
        (deleteToken refLib sampleConfig sampleEnv issuedState adminHeader "svc-a").1
        (some ("Bearer " ++ sampleToken))).status? = some 401 := by
  decide

end AuthService
